import Mathlib

/-!
PortProxy: rule lifecycle manager and relay session.

A shallow embedding of `src/portProxy.go` (the `ProxyManager` methods
`saveRules`, `AddRule`, `UpdateRule`, `DeleteRule`, `GetRules`, and the
connection handling of `startListenerLoop` / `handleConnection`).

* The rule table `map[string]*ForwardRule` is an association list; a rule
  pointer is represented by the table entry it points to.
* The operating system is explicit state: the listening sockets that are
  open, and the connections on which `Close` has been called.
* The outcomes the environment decides (does `net.Listen` succeed, does the
  write of the rules file succeed) are Boolean parameters of the operations.
-/

namespace PortProxy

/-! ## Data model -/

/-- Handle of a listening socket, a non-nil `net.Listener`. -/
abbrev Listener := Nat

/-- Identity of an accepted connection, a `net.Conn`. -/
abbrev Conn := Nat

/-- The struct `ForwardRule`. The field `listener` is `none` for the nil
interface value; a nil `activeConns` map and an empty one are both `[]`
(the field `connsMu` is a lock and carries no data). -/
structure ForwardRule where
  Name : String
  LocalAddr : String
  RemoteAddr : String
  listener : Option Listener
  activeConns : List Conn
deriving DecidableEq, Repr

/-- The errors built with `fmt.Errorf` in the manager, one constructor per
format string, and the error of a failed `saveRules`. -/
inductive Error where
  /-- "规则已存在: %s" -/
  | ruleExists (localAddr : String)
  /-- "无法监听 %s: %v" -/
  | listenFailed (localAddr : String)
  /-- "规则不存在: %s" -/
  | ruleNotFound (localAddr : String)
  /-- "规则 %s 在更新期间被删除" -/
  | deletedDuringUpdate (localAddr : String)
  /-- "更新失败：无法删除旧规则 %s: %w" -/
  | updateDeleteFailed (localAddr : String) (cause : Error)
  /-- "更新失败：已成功删除旧规则，但无法添加新规则 %s: %w" -/
  | updateAddFailed (localAddr : String) (cause : Error)
  /-- the error returned by `os.WriteFile` inside `saveRules` -/
  | saveFailed
deriving DecidableEq, Repr

/-- The Go map `map[string]*ForwardRule`, as an association list. -/
abbrev RuleMap := List (String × ForwardRule)

/-- Map read `m[k]` with the comma-ok form: `none` when `k` is not a key. -/
def mapGet : RuleMap → String → Option ForwardRule
  | [], _ => none
  | (k', r) :: rest, k => if k' = k then some r else mapGet rest k

/-- The builtin `delete(m, k)`. -/
def mapDelete (m : RuleMap) (k : String) : RuleMap :=
  m.filter (fun e => decide (e.1 ≠ k))

/-- Map assignment `m[k] = r`: any previous entry of `k` is replaced. -/
def mapSet (m : RuleMap) (k : String) (r : ForwardRule) : RuleMap :=
  mapDelete m k ++ [(k, r)]

/-- A write through the pointer stored under `k` (`rule.field = v` after
`rule := m[k]`): the entry is changed in place, the map itself is not
assigned. -/
def mapModify (m : RuleMap) (k : String) (f : ForwardRule → ForwardRule) : RuleMap :=
  m.map (fun e => if e.1 = k then (e.1, f e.2) else e)

/-- The keys of the map. -/
def mapKeys (m : RuleMap) : List String := m.map Prod.fst

/-- The struct `ProxyManager` (the lock `mu` carries no data). -/
structure ProxyManager where
  rules : RuleMap
  rulesPath : String
deriving DecidableEq, Repr

/-- The sockets of the process as the operating system sees them. -/
structure Net where
  /-- the handle the next successful `net.Listen` returns -/
  nextListener : Nat
  /-- the open listening sockets, each with the address it is bound to -/
  listening : List (Listener × String)
  /-- the connections on which `Close` has been called -/
  closedConns : List Conn
deriving DecidableEq, Repr

/-- A manager together with its environment: the sockets and the content of
the rules file at `rulesPath` (`none` while the file has never been
written). -/
structure World where
  pm : ProxyManager
  net : Net
  rulesFile : Option (List ForwardRule)
deriving DecidableEq, Repr

/-! ## Environment operations -/

/-- The call `net.Listen("tcp", addr)`; `ok` is its outcome. On success a
fresh listening socket bound to `addr` is open. -/
def netListen (n : Net) (ok : Bool) (addr : String) : Net × Option Listener :=
  if ok then
    ({ n with nextListener := n.nextListener + 1,
              listening := n.listening ++ [(n.nextListener, addr)] },
     some n.nextListener)
  else (n, none)

/-- The call `listener.Close()`. The table only ever holds rules built by
`AddRule`, whose listener is not nil; on `none` nothing is closed. -/
def listenerClose (n : Net) : Option Listener → Net
  | none => n
  | some l => { n with listening := n.listening.filter (fun e => decide (e.1 ≠ l)) }

/-- The call `conn.Close()`. -/
def connClose (n : Net) (c : Conn) : Net :=
  { n with closedConns := n.closedConns ++ [c] }

/-- The function `strings.Contains(s, substr)`. -/
def stringsContains (s substr : String) : Bool :=
  s.data.tails.any (fun t => substr.data.isPrefixOf t)

/-- The statement `if !strings.Contains(localAddr, ":") { localAddr =
"0.0.0.0:" + localAddr }` that opens both `AddRule` and `UpdateRule`. -/
def normalizeLocalAddr (localAddr : String) : String :=
  if !stringsContains localAddr ":" then "0.0.0.0:" ++ localAddr else localAddr

/-! ## ProxyManager methods -/

/-- The rule literal `&ForwardRule{Name: ..., LocalAddr: ..., RemoteAddr: ...}`
built by `saveRules` and `GetRules`: the other fields take their zero
value. -/
def snapshot (rule : ForwardRule) : ForwardRule :=
  { Name := rule.Name, LocalAddr := rule.LocalAddr, RemoteAddr := rule.RemoteAddr,
    listener := none, activeConns := [] }

/-- The method `saveRules`; `writeOk` is the outcome of `os.WriteFile`
(a failed write is taken to leave the file as it was). -/
def saveRules (w : World) (writeOk : Bool) : World × Option Error :=
  let rulesToSave := w.pm.rules.map (fun e => snapshot e.2)
  if writeOk then ({ w with rulesFile := some rulesToSave }, none)
  else (w, some Error.saveFailed)

/-- The method `AddRule`; `listenOk` is the outcome of `net.Listen` and
`writeOk` the outcome of the write in `saveRules`. The result is the new
world and the Go result pair `(*ForwardRule, error)`. The accept loop started
with `go pm.startListenerLoop(rule)` is modelled per connection, in the relay
session below. -/
def AddRule (w : World) (name localAddr remoteAddr : String) (listenOk writeOk : Bool) :
    World × Option ForwardRule × Option Error :=
  let localAddr := normalizeLocalAddr localAddr
  match mapGet w.pm.rules localAddr with
  | some _ => (w, none, some (Error.ruleExists localAddr))
  | none =>
    match netListen w.net listenOk localAddr with
    | (_, none) => (w, none, some (Error.listenFailed localAddr))
    | (net1, some listener) =>
      let rule : ForwardRule :=
        { Name := name, LocalAddr := localAddr, RemoteAddr := remoteAddr,
          listener := some listener, activeConns := [] }
      let w1 : World :=
        { w with pm := { w.pm with rules := mapSet w.pm.rules localAddr rule }, net := net1 }
      ((saveRules w1 writeOk).1, some rule, none)

/-- The method `DeleteRule`; `writeOk` is the outcome of the write in
`saveRules`. -/
def DeleteRule (w : World) (localAddr : String) (writeOk : Bool) : World × Option Error :=
  match mapGet w.pm.rules localAddr with
  | none => (w, some (Error.ruleNotFound localAddr))
  | some rule =>
    let net1 := listenerClose w.net rule.listener
    let net2 := rule.activeConns.foldl connClose net1
    let w1 : World :=
      { w with pm := { w.pm with rules := mapDelete w.pm.rules localAddr }, net := net2 }
    ((saveRules w1 writeOk).1, none)

/-- The method `UpdateRule`. `listenOk` is the outcome of the `net.Listen`
of the inner `AddRule`; `writeOk1` and `writeOk2` are the outcomes of the
first and the second call of `saveRules` (the metadata-only path makes one
call, the identity-change path one in `DeleteRule` and one in `AddRule`). -/
def UpdateRule (w : World) (originalLocalAddr newName newLocalAddr newRemoteAddr : String)
    (listenOk writeOk1 writeOk2 : Bool) : World × Option Error :=
  let newLocalAddr := normalizeLocalAddr newLocalAddr
  match mapGet w.pm.rules originalLocalAddr with
  | none => (w, some (Error.ruleNotFound originalLocalAddr))
  | some rule =>
    let originalRemoteAddr := rule.RemoteAddr
    if originalLocalAddr = newLocalAddr ∧ originalRemoteAddr = newRemoteAddr then
      match mapGet w.pm.rules originalLocalAddr with
      | none => (w, some (Error.deletedDuringUpdate originalLocalAddr))
      | some _ =>
        let rules1 := mapModify w.pm.rules originalLocalAddr (fun r => { r with Name := newName })
        let w1 : World := { w with pm := { w.pm with rules := rules1 } }
        saveRules w1 writeOk1
    else
      match DeleteRule w originalLocalAddr writeOk1 with
      | (w1, some err) => (w1, some (Error.updateDeleteFailed originalLocalAddr err))
      | (w1, none) =>
        match AddRule w1 newName newLocalAddr newRemoteAddr listenOk writeOk2 with
        | (w2, _, some err) => (w2, some (Error.updateAddFailed newLocalAddr err))
        | (w2, _, none) => (w2, none)

/-- The method `GetRules`. -/
def GetRules (w : World) : List ForwardRule :=
  w.pm.rules.map (fun e => snapshot e.2)

/-- The function `NewProxyManager`, in a process with no socket open and no
rules file written. -/
def NewProxyManager (rulesPath : String) : World :=
  { pm := { rules := [], rulesPath := rulesPath },
    net := { nextListener := 0, listening := [], closedConns := [] },
    rulesFile := none }

/-- The host part of an address `host:port` as `net.SplitHostPort` reads
it for an address without brackets: what stands before the last colon. -/
def hostPart (addr : String) : String :=
  String.mk ((addr.data.reverse.dropWhile (fun c => decide (c ≠ ':'))).drop 1).reverse

/-! ## Sequences of manager calls -/

/-- One call of a mutating method, with the outcomes the environment gives
to it. -/
inductive Op where
  | add (name localAddr remoteAddr : String) (listenOk writeOk : Bool)
  | update (originalLocalAddr newName newLocalAddr newRemoteAddr : String)
      (listenOk writeOk1 writeOk2 : Bool)
  | delete (localAddr : String) (writeOk : Bool)
deriving DecidableEq, Repr

/-- The world after one call; the call's result is dropped. -/
def applyOp (w : World) : Op → World
  | Op.add name localAddr remoteAddr listenOk writeOk =>
      (AddRule w name localAddr remoteAddr listenOk writeOk).1
  | Op.update originalLocalAddr newName newLocalAddr newRemoteAddr listenOk writeOk1 writeOk2 =>
      (UpdateRule w originalLocalAddr newName newLocalAddr newRemoteAddr
        listenOk writeOk1 writeOk2).1
  | Op.delete localAddr writeOk => (DeleteRule w localAddr writeOk).1

/-- The world after a sequence of calls, made one after the other. -/
def runOps (w : World) (ops : List Op) : World := ops.foldl applyOp w

/-! ## Relay session

One accepted connection, from `Accept` returning in `startListenerLoop` to
the end of `handleConnection`. The goroutines involved (the accept loop,
the body of `handleConnection`, the two copy goroutines) interleave; a
schedule is a list of `Step`s, each the next move of one of them or an
outcome given by the environment. -/

/-- Where the accept loop and then the body of `handleConnection` stand for
this connection. -/
inductive MainPc where
  /-- `Accept` has returned `clientConn` -/
  | accepted
  /-- `rule.activeConns[clientConn] = struct{}{}` is done -/
  | registered
  /-- `go pm.handleConnection` has run: the body is at `net.DialTimeout` -/
  | dialing
  /-- the body is at `wg.Wait()` -/
  | waiting
  /-- `wg.Wait()` has returned: the deferred `remoteConn.Close()` is next -/
  | closingRemote
  /-- the deferred `delete(rule.activeConns, clientConn)` is next -/
  | deregistering
  /-- the deferred `clientConn.Close()` is next -/
  | closingClient
  /-- `handleConnection` has returned -/
  | terminated
deriving DecidableEq, Repr

/-- Where one copy goroutine stands. -/
inductive CopyPc where
  /-- the goroutine does not exist -/
  | notStarted
  /-- inside `io.Copy` -/
  | copying
  /-- `io.Copy` has returned: `CloseWrite` and `wg.Done` are next -/
  | copied
  /-- `wg.Done()` has run -/
  | done
deriving DecidableEq, Repr

/-- The two copy goroutines of `handleConnection`, named by destination. -/
inductive Dir where
  /-- `io.Copy(clientConn, remoteConn)` -/
  | toClient
  /-- `io.Copy(remoteConn, clientConn)` -/
  | toRemote
deriving DecidableEq, Repr

/-- The state of one session. -/
structure Session where
  main : MainPc
  toClient : CopyPc
  toRemote : CopyPc
  /-- the counter of the `sync.WaitGroup` -/
  wg : Nat
  /-- the result of `net.DialTimeout`, once it has returned: `true` for a
  connection, `false` for an error -/
  dialed : Option Bool
  /-- `clientConn` is a key of `rule.activeConns` -/
  inActiveSet : Bool
  /-- the session has called `clientConn.Close()` -/
  clientClosed : Bool
  /-- a remote connection exists -/
  remoteOpened : Bool
  /-- the session has called `remoteConn.Close()` -/
  remoteClosed : Bool
  /-- `CloseWrite` has been called on `clientConn` -/
  clientWriteClosed : Bool
  /-- `CloseWrite` has been called on `remoteConn` -/
  remoteWriteClosed : Bool
deriving DecidableEq, Repr

/-- The session right after `Accept` has returned the connection. -/
def Session.init : Session :=
  { main := MainPc.accepted, toClient := CopyPc.notStarted, toRemote := CopyPc.notStarted,
    wg := 0, dialed := none, inActiveSet := false, clientClosed := false,
    remoteOpened := false, remoteClosed := false,
    clientWriteClosed := false, remoteWriteClosed := false }

/-- The moves of a schedule. -/
inductive Step where
  /-- the accept loop inserts the connection into `rule.activeConns` -/
  | register
  /-- the accept loop runs `go pm.handleConnection(clientConn, rule)` -/
  | spawn
  /-- `net.DialTimeout` returns, with a connection (`true`) or an error -/
  | dial (ok : Bool)
  /-- the `io.Copy` of a copy goroutine returns -/
  | copyReturns (d : Dir)
  /-- a copy goroutine half-closes its destination and runs `wg.Done()` -/
  | finish (d : Dir)
  /-- `wg.Wait()` returns -/
  | waitReturns
  /-- the deferred `remoteConn.Close()` -/
  | closeRemote
  /-- the deferred `delete(rule.activeConns, clientConn)` -/
  | deregister
  /-- the deferred `clientConn.Close()` -/
  | closeClient
deriving DecidableEq, Repr

/-- The program point of the copy goroutine of a direction. -/
def Session.copyPc (s : Session) : Dir → CopyPc
  | Dir.toClient => s.toClient
  | Dir.toRemote => s.toRemote

/-- One move; `none` when the move is not possible in the state. -/
def step (s : Session) : Step → Option Session
  | Step.register =>
      if s.main = MainPc.accepted then
        some { s with main := MainPc.registered, inActiveSet := true }
      else none
  | Step.spawn =>
      if s.main = MainPc.registered then some { s with main := MainPc.dialing } else none
  | Step.dial true =>
      if s.main = MainPc.dialing then
        some { s with main := MainPc.waiting, dialed := some true, remoteOpened := true,
                      wg := s.wg + 2, toClient := CopyPc.copying, toRemote := CopyPc.copying }
      else none
  | Step.dial false =>
      if s.main = MainPc.dialing then
        some { s with main := MainPc.deregistering, dialed := some false }
      else none
  | Step.copyReturns Dir.toClient =>
      if s.toClient = CopyPc.copying then some { s with toClient := CopyPc.copied } else none
  | Step.copyReturns Dir.toRemote =>
      if s.toRemote = CopyPc.copying then some { s with toRemote := CopyPc.copied } else none
  | Step.finish Dir.toClient =>
      if s.toClient = CopyPc.copied then
        some { s with toClient := CopyPc.done, clientWriteClosed := true, wg := s.wg - 1 }
      else none
  | Step.finish Dir.toRemote =>
      if s.toRemote = CopyPc.copied then
        some { s with toRemote := CopyPc.done, remoteWriteClosed := true, wg := s.wg - 1 }
      else none
  | Step.waitReturns =>
      if s.main = MainPc.waiting ∧ s.wg = 0 then
        some { s with main := MainPc.closingRemote }
      else none
  | Step.closeRemote =>
      if s.main = MainPc.closingRemote then
        some { s with main := MainPc.deregistering, remoteClosed := true }
      else none
  | Step.deregister =>
      if s.main = MainPc.deregistering then
        some { s with main := MainPc.closingClient, inActiveSet := false }
      else none
  | Step.closeClient =>
      if s.main = MainPc.closingClient then
        some { s with main := MainPc.terminated, clientClosed := true }
      else none

/-- The state a schedule leads to; `none` when one of its moves is not
possible. -/
def runSteps (s : Session) : List Step → Option Session
  | [] => some s
  | st :: rest =>
    match step s st with
    | none => none
    | some s1 => runSteps s1 rest

/-- A copy direction is still running: its goroutine exists and has not
finished. -/
def Session.copyRunning (s : Session) (d : Dir) : Prop :=
  s.copyPc d = CopyPc.copying ∨ s.copyPc d = CopyPc.copied

/-- The number of copy goroutines that have not run `wg.Done()`. -/
def copiesLeft (s : Session) : Nat :=
  (if s.toClient = CopyPc.done then 0 else 1) + (if s.toRemote = CopyPc.done then 0 else 1)

/-- The session is in the deferred part of `handleConnection`, entered either
from the failed dial (no remote connection, no copy goroutine) or after
`wg.Wait()` and `remoteConn.Close()` (both copy goroutines done). -/
def tearingDown (s : Session) : Prop :=
  (s.dialed = some false ∧ s.remoteOpened = false ∧ s.remoteClosed = false
      ∧ s.toClient = CopyPc.notStarted ∧ s.toRemote = CopyPc.notStarted)
    ∨ (s.dialed = some true ∧ s.remoteOpened = true ∧ s.remoteClosed = true
      ∧ s.toClient = CopyPc.done ∧ s.toRemote = CopyPc.done)

/-- Nothing of the session has run yet beyond the accept loop. -/
def notDialed (s : Session) : Prop :=
  s.dialed = none ∧ s.clientClosed = false ∧ s.remoteOpened = false ∧ s.remoteClosed = false
    ∧ s.toClient = CopyPc.notStarted ∧ s.toRemote = CopyPc.notStarted ∧ s.wg = 0

/-- What holds of a session at each program point. -/
def SessionInv (s : Session) : Prop :=
  match s.main with
  | MainPc.accepted => s.inActiveSet = false ∧ notDialed s
  | MainPc.registered => s.inActiveSet = true ∧ notDialed s
  | MainPc.dialing => s.inActiveSet = true ∧ notDialed s
  | MainPc.waiting =>
      s.dialed = some true ∧ s.inActiveSet = true ∧ s.clientClosed = false
        ∧ s.remoteOpened = true ∧ s.remoteClosed = false
        ∧ s.toClient ≠ CopyPc.notStarted ∧ s.toRemote ≠ CopyPc.notStarted
        ∧ s.wg = copiesLeft s
  | MainPc.closingRemote =>
      s.dialed = some true ∧ s.inActiveSet = true ∧ s.clientClosed = false
        ∧ s.remoteOpened = true ∧ s.remoteClosed = false
        ∧ s.toClient = CopyPc.done ∧ s.toRemote = CopyPc.done
  | MainPc.deregistering => s.inActiveSet = true ∧ s.clientClosed = false ∧ tearingDown s
  | MainPc.closingClient => s.inActiveSet = false ∧ s.clientClosed = false ∧ tearingDown s
  | MainPc.terminated => s.inActiveSet = false ∧ s.clientClosed = true ∧ tearingDown s

/-! ## The table invariant -/

/-- The invariant of the manager and its sockets: the keys of the table are
distinct; every entry holds a rule whose `LocalAddr` is the key and whose
listener is an open socket bound to the key; every open listening socket has
a handle below the next one to be given out and is the listener of the rule
stored under its address; the handles of the open sockets are distinct. -/
def TableInv (w : World) : Prop :=
  (mapKeys w.pm.rules).Nodup
    ∧ (∀ k r, (k, r) ∈ w.pm.rules →
          r.LocalAddr = k ∧ ∃ l, r.listener = some l ∧ (l, k) ∈ w.net.listening)
    ∧ (∀ l a, (l, a) ∈ w.net.listening →
          l < w.net.nextListener ∧ ∃ r, (a, r) ∈ w.pm.rules ∧ r.listener = some l)
    ∧ (w.net.listening.map Prod.fst).Nodup

/-! ## Sample states -/

/-- A manager with one rule, bound to `0.0.0.0:8080`, whose listener is open
and which has two accepted connections. -/
def sampleWorld : World :=
  { pm := { rules := [("0.0.0.0:8080",
              { Name := "web", LocalAddr := "0.0.0.0:8080", RemoteAddr := "10.0.0.1:80",
                listener := some 0, activeConns := [7, 9] })],
            rulesPath := "rules.json" },
    net := { nextListener := 1, listening := [(0, "0.0.0.0:8080")], closedConns := [] },
    rulesFile := none }

/-- A manager with two rules, each with its listener open; the first has two
accepted connections, the second one. -/
def sampleWorld2 : World :=
  { pm := { rules := [("0.0.0.0:8080",
              { Name := "web", LocalAddr := "0.0.0.0:8080", RemoteAddr := "10.0.0.1:80",
                listener := some 0, activeConns := [7, 9] }),
             ("127.0.0.1:2222",
              { Name := "ssh", LocalAddr := "127.0.0.1:2222", RemoteAddr := "10.0.0.2:22",
                listener := some 1, activeConns := [8] })],
            rulesPath := "rules.json" },
    net := { nextListener := 2,
             listening := [(0, "0.0.0.0:8080"), (1, "127.0.0.1:2222")], closedConns := [] },
    rulesFile := none }

/-- A schedule of a session whose dial succeeds: the copy towards the
remote side ends first, then the copy towards the client. -/
def sampleSchedule : List Step :=
  [Step.register, Step.spawn, Step.dial true,
   Step.copyReturns Dir.toRemote, Step.finish Dir.toRemote,
   Step.copyReturns Dir.toClient, Step.finish Dir.toClient,
   Step.waitReturns, Step.closeRemote, Step.deregister, Step.closeClient]

/-- The session at the end of `sampleSchedule`. -/
def sampleFinal : Session :=
  { main := MainPc.terminated, toClient := CopyPc.done, toRemote := CopyPc.done,
    wg := 0, dialed := some true, inActiveSet := false, clientClosed := true,
    remoteOpened := true, remoteClosed := true,
    clientWriteClosed := true, remoteWriteClosed := true }

/-- A schedule of a session whose dial fails. -/
def sampleFailedSchedule : List Step :=
  [Step.register, Step.spawn, Step.dial false, Step.deregister, Step.closeClient]

/-- The session when the body of `handleConnection` is at the dial. -/
def sampleDialing : Session :=
  { main := MainPc.dialing, toClient := CopyPc.notStarted, toRemote := CopyPc.notStarted,
    wg := 0, dialed := none, inActiveSet := true, clientClosed := false,
    remoteOpened := false, remoteClosed := false,
    clientWriteClosed := false, remoteWriteClosed := false }

/-- The session at the end of `sampleFailedSchedule`. -/
def sampleFailedFinal : Session :=
  { main := MainPc.terminated, toClient := CopyPc.notStarted, toRemote := CopyPc.notStarted,
    wg := 0, dialed := some false, inActiveSet := false, clientClosed := true,
    remoteOpened := false, remoteClosed := false,
    clientWriteClosed := false, remoteWriteClosed := false }

/-- The moves that let one copy goroutine run to its end. -/
def copyDrain (d : Dir) : CopyPc → List Step
  | CopyPc.copying => [Step.copyReturns d, Step.finish d]
  | CopyPc.copied => [Step.finish d]
  | _ => []

/-- The moves that let the body of `handleConnection` run to its end once
both copy goroutines are done. -/
def mainDrain : MainPc → List Step
  | MainPc.waiting =>
      [Step.waitReturns, Step.closeRemote, Step.deregister, Step.closeClient]
  | MainPc.closingRemote => [Step.closeRemote, Step.deregister, Step.closeClient]
  | MainPc.deregistering => [Step.deregister, Step.closeClient]
  | MainPc.closingClient => [Step.closeClient]
  | _ => []

/-- A schedule that ends a session whose dial has succeeded: both copies
return, then the body leaves `wg.Wait()` and runs its deferred calls. -/
def drainSchedule (s : Session) : List Step :=
  copyDrain Dir.toClient s.toClient ++ copyDrain Dir.toRemote s.toRemote ++ mainDrain s.main

/-! ## Lemmas on strings and on the rule map -/

theorem any_tails_singleton_prefix (c : Char) (l : List Char) :
    l.tails.any (fun t => [c].isPrefixOf t) = true ↔ c ∈ l := by
  induction l with
  | nil => simp [List.isPrefixOf]
  | cons a l ih =>
    rw [List.tails, List.any_cons, Bool.or_eq_true, ih]
    simp [List.isPrefixOf]

theorem stringsContains_colon (s : String) :
    stringsContains s ":" = true ↔ ':' ∈ s.data :=
  any_tails_singleton_prefix ':' s.data

theorem normalizeLocalAddr_of_not_mem (s : String) (h : ':' ∉ s.data) :
    normalizeLocalAddr s = "0.0.0.0:" ++ s := by
  have h1 : stringsContains s ":" = false := by
    rw [← Bool.not_eq_true, stringsContains_colon]; exact h
  unfold normalizeLocalAddr
  rw [h1]; rfl

theorem normalizeLocalAddr_of_mem (s : String) (h : ':' ∈ s.data) :
    normalizeLocalAddr s = s := by
  have h1 : stringsContains s ":" = true := (stringsContains_colon s).2 h
  unfold normalizeLocalAddr
  rw [h1]; rfl

theorem colon_mem_normalizeLocalAddr (s : String) :
    ':' ∈ (normalizeLocalAddr s).data := by
  by_cases h : ':' ∈ s.data
  · rw [normalizeLocalAddr_of_mem s h]; exact h
  · rw [normalizeLocalAddr_of_not_mem s h, String.data_append]
    exact List.mem_append_left _ (by decide)

theorem normalizeLocalAddr_idem (s : String) :
    normalizeLocalAddr (normalizeLocalAddr s) = normalizeLocalAddr s :=
  normalizeLocalAddr_of_mem _ (colon_mem_normalizeLocalAddr s)

theorem mapGet_eq_none_iff (m : RuleMap) (k : String) :
    mapGet m k = none ↔ k ∉ mapKeys m := by
  induction m with
  | nil => simp [mapGet, mapKeys]
  | cons e m ih =>
    obtain ⟨k', r⟩ := e
    by_cases hk : k' = k
    · simp [mapGet, mapKeys, hk]
    · have hk' : ¬ k = k' := fun h => hk h.symm
      simpa [mapGet, mapKeys, hk, hk'] using ih

theorem mapGet_isSome_iff (m : RuleMap) (k : String) :
    (∃ r, mapGet m k = some r) ↔ k ∈ mapKeys m := by
  rw [← not_iff_not, ← mapGet_eq_none_iff]
  cases mapGet m k <;> simp

theorem mem_of_mapGet (m : RuleMap) (k : String) (r : ForwardRule)
    (h : mapGet m k = some r) : (k, r) ∈ m := by
  induction m with
  | nil => simp [mapGet] at h
  | cons e m ih =>
    obtain ⟨k', r'⟩ := e
    by_cases hk : k' = k
    · simp [mapGet, hk] at h
      simp [hk, h]
    · simp [mapGet, hk] at h
      exact List.mem_cons_of_mem _ (ih h)

theorem mapGet_of_mem (m : RuleMap) (k : String) (r : ForwardRule)
    (hnd : (mapKeys m).Nodup) (h : (k, r) ∈ m) : mapGet m k = some r := by
  induction m with
  | nil => simp at h
  | cons e m ih =>
    obtain ⟨k', r'⟩ := e
    simp only [mapKeys, List.map_cons, List.nodup_cons] at hnd
    rcases List.mem_cons.1 h with h1 | h1
    · cases h1; simp [mapGet]
    · have hk : k' ≠ k := by
        rintro rfl
        exact hnd.1 (List.mem_map.2 ⟨(k', r), h1, rfl⟩)
      simp only [mapGet, hk, if_false]
      exact ih hnd.2 h1

theorem mapGet_append (m1 m2 : RuleMap) (k : String) :
    mapGet (m1 ++ m2) k = (mapGet m1 k).orElse (fun _ => mapGet m2 k) := by
  induction m1 with
  | nil => simp [mapGet]
  | cons e m ih =>
    obtain ⟨k', r⟩ := e
    by_cases hk : k' = k <;> simp [mapGet, hk, ih]

theorem mapGet_cons (k' : String) (r : ForwardRule) (m : RuleMap) (k : String) :
    mapGet ((k', r) :: m) k = if k' = k then some r else mapGet m k := rfl

theorem mapDelete_cons (k' : String) (r : ForwardRule) (m : RuleMap) (k : String) :
    mapDelete ((k', r) :: m) k = if k' = k then mapDelete m k else (k', r) :: mapDelete m k := by
  by_cases h : k' = k <;> simp [mapDelete, List.filter_cons, h]

theorem mapModify_cons (k' : String) (r : ForwardRule) (m : RuleMap) (k : String)
    (f : ForwardRule → ForwardRule) :
    mapModify ((k', r) :: m) k f
      = (if k' = k then (k', f r) else (k', r)) :: mapModify m k f := rfl

theorem mem_mapDelete (m : RuleMap) (k : String) (e : String × ForwardRule) :
    e ∈ mapDelete m k ↔ e ∈ m ∧ e.1 ≠ k := by
  simp [mapDelete, List.mem_filter]

theorem mapGet_mapDelete_self (m : RuleMap) (k : String) :
    mapGet (mapDelete m k) k = none := by
  rw [mapGet_eq_none_iff]
  intro h
  obtain ⟨e, he, hk⟩ := List.mem_map.1 h
  exact ((mem_mapDelete m k e).1 he).2 hk

theorem mapGet_mapDelete_ne (m : RuleMap) (k k' : String) (h : k' ≠ k) :
    mapGet (mapDelete m k) k' = mapGet m k' := by
  induction m with
  | nil => rfl
  | cons e m ih =>
    obtain ⟨k1, r⟩ := e
    rw [mapDelete_cons, mapGet_cons]
    by_cases h1 : k1 = k
    · have h2 : ¬ k1 = k' := fun h3 => h (h3.symm.trans h1)
      rw [if_pos h1, if_neg h2, ih]
    · rw [if_neg h1, mapGet_cons, ih]

theorem mapGet_mapSet_self (m : RuleMap) (k : String) (r : ForwardRule) :
    mapGet (mapSet m k r) k = some r := by
  simp [mapSet, mapGet_append, mapGet_mapDelete_self, mapGet]

theorem mapGet_mapSet_ne (m : RuleMap) (k k' : String) (r : ForwardRule) (h : k' ≠ k) :
    mapGet (mapSet m k r) k' = mapGet m k' := by
  have h1 : ¬ k = k' := fun h2 => h h2.symm
  rw [mapSet, mapGet_append, mapGet_mapDelete_ne m k k' h]
  cases mapGet m k' <;> simp [mapGet, h1]

theorem mapKeys_mapModify (m : RuleMap) (k : String) (f : ForwardRule → ForwardRule) :
    mapKeys (mapModify m k f) = mapKeys m := by
  induction m with
  | nil => rfl
  | cons e m ih =>
    obtain ⟨k', r⟩ := e
    rw [mapModify_cons]
    simp only [mapKeys, List.map_cons] at ih ⊢
    rw [ih]
    by_cases hk : k' = k <;> simp [hk]

theorem mapGet_mapModify_self (m : RuleMap) (k : String) (f : ForwardRule → ForwardRule) :
    mapGet (mapModify m k f) k = (mapGet m k).map f := by
  induction m with
  | nil => rfl
  | cons e m ih =>
    obtain ⟨k', r⟩ := e
    rw [mapModify_cons]
    by_cases hk : k' = k
    · rw [if_pos hk, mapGet_cons, mapGet_cons, if_pos hk, if_pos hk]; rfl
    · rw [if_neg hk, mapGet_cons, mapGet_cons, if_neg hk, if_neg hk, ih]

theorem mapGet_mapModify_ne (m : RuleMap) (k k' : String) (f : ForwardRule → ForwardRule)
    (h : k' ≠ k) : mapGet (mapModify m k f) k' = mapGet m k' := by
  induction m with
  | nil => rfl
  | cons e m ih =>
    obtain ⟨k1, r⟩ := e
    rw [mapModify_cons]
    by_cases hk : k1 = k
    · have h2 : ¬ k1 = k' := fun h3 => h (h3.symm.trans hk)
      rw [if_pos hk, mapGet_cons, mapGet_cons, if_neg h2, if_neg h2, ih]
    · rw [if_neg hk, mapGet_cons, mapGet_cons, ih]

/-! ## Lemmas on the environment operations -/

theorem foldl_connClose_closedConns (l : List Conn) (n : Net) :
    (l.foldl connClose n).closedConns = n.closedConns ++ l := by
  induction l generalizing n with
  | nil => simp
  | cons c l ih => simp [List.foldl_cons, ih, connClose]

theorem foldl_connClose_listening (l : List Conn) (n : Net) :
    (l.foldl connClose n).listening = n.listening := by
  induction l generalizing n with
  | nil => rfl
  | cons c l ih => simp [List.foldl_cons, ih, connClose]

theorem foldl_connClose_nextListener (l : List Conn) (n : Net) :
    (l.foldl connClose n).nextListener = n.nextListener := by
  induction l generalizing n with
  | nil => rfl
  | cons c l ih => simp [List.foldl_cons, ih, connClose]

theorem saveRules_pm (w : World) (writeOk : Bool) : (saveRules w writeOk).1.pm = w.pm := by
  cases writeOk <;> rfl

theorem saveRules_net (w : World) (writeOk : Bool) : (saveRules w writeOk).1.net = w.net := by
  cases writeOk <;> rfl

/-- What `DeleteRule` does when the address is a key of the table. -/
theorem DeleteRule_of_get (w : World) (localAddr : String) (writeOk : Bool)
    (rule : ForwardRule) (h : mapGet w.pm.rules localAddr = some rule) :
    DeleteRule w localAddr writeOk
      = ((saveRules
            { w with pm := { w.pm with rules := mapDelete w.pm.rules localAddr },
                     net := (rule.activeConns.foldl connClose
                              (listenerClose w.net rule.listener)) } writeOk).1, none) := by
  unfold DeleteRule
  rw [h]

/-- What `AddRule` does when the normalized address is free and the listen
succeeds. -/
theorem AddRule_of_free (w : World) (name localAddr remoteAddr : String) (writeOk : Bool)
    (h : mapGet w.pm.rules (normalizeLocalAddr localAddr) = none) :
    AddRule w name localAddr remoteAddr true writeOk
      = ((saveRules
            { w with pm := { w.pm with rules := (mapSet w.pm.rules (normalizeLocalAddr localAddr)
                        { Name := name, LocalAddr := normalizeLocalAddr localAddr,
                          RemoteAddr := remoteAddr, listener := some w.net.nextListener,
                          activeConns := [] }) },
                     net := { w.net with
                        nextListener := w.net.nextListener + 1,
                        listening := (w.net.listening
                          ++ [(w.net.nextListener, normalizeLocalAddr localAddr)]) } } writeOk).1,
         some { Name := name, LocalAddr := normalizeLocalAddr localAddr,
                RemoteAddr := remoteAddr, listener := some w.net.nextListener,
                activeConns := [] },
         none) := by
  unfold AddRule
  simp only [h, netListen, if_true]

/-- What `AddRule` does when the normalized address is free and the listen
fails. -/
theorem AddRule_of_listen_failed (w : World) (name localAddr remoteAddr : String)
    (writeOk : Bool) (h : mapGet w.pm.rules (normalizeLocalAddr localAddr) = none) :
    AddRule w name localAddr remoteAddr false writeOk
      = (w, none, some (Error.listenFailed (normalizeLocalAddr localAddr))) := by
  unfold AddRule
  simp [h, netListen]

/-- What `AddRule` does when the normalized address is a key of the table. -/
theorem AddRule_of_present (w : World) (name localAddr remoteAddr : String)
    (listenOk writeOk : Bool) (rule : ForwardRule)
    (h : mapGet w.pm.rules (normalizeLocalAddr localAddr) = some rule) :
    AddRule w name localAddr remoteAddr listenOk writeOk
      = (w, none, some (Error.ruleExists (normalizeLocalAddr localAddr))) := by
  unfold AddRule
  simp only [h]

/-- `AddRule` succeeds exactly when the normalized address is free and the
listen succeeds. -/
theorem AddRule_success_iff (w : World) (name localAddr remoteAddr : String)
    (listenOk writeOk : Bool) :
    (AddRule w name localAddr remoteAddr listenOk writeOk).2.2 = none
      ↔ mapGet w.pm.rules (normalizeLocalAddr localAddr) = none ∧ listenOk = true := by
  cases hg : mapGet w.pm.rules (normalizeLocalAddr localAddr) with
  | some rule =>
    rw [AddRule_of_present w name localAddr remoteAddr listenOk writeOk rule hg]
    simp
  | none =>
    cases listenOk with
    | false => rw [AddRule_of_listen_failed w name localAddr remoteAddr writeOk hg]; simp
    | true => rw [AddRule_of_free w name localAddr remoteAddr writeOk hg]; simp

theorem dropWhile_append_of_all {α : Type} (p : α → Bool) (l1 l2 : List α)
    (h : ∀ x ∈ l1, p x = true) : (l1 ++ l2).dropWhile p = l2.dropWhile p := by
  induction l1 with
  | nil => rfl
  | cons a l ih =>
    have ha : p a = true := h a (List.mem_cons_self a l)
    rw [List.cons_append, List.dropWhile_cons, ha]
    exact ih (fun x hx => h x (List.mem_cons_of_mem a hx))

theorem hostPart_default_host (port : String) (h : ':' ∉ port.data) :
    hostPart ("0.0.0.0:" ++ port) = "0.0.0.0" := by
  unfold hostPart
  rw [String.data_append, List.reverse_append, dropWhile_append_of_all]
  · rfl
  · intro x hx
    have hx' : x ∈ port.data := List.mem_reverse.1 hx
    have : x ≠ ':' := fun e => h (e ▸ hx')
    simpa using this

/-- What `UpdateRule` does on the metadata-only path. -/
theorem UpdateRule_of_same (w : World)
    (originalLocalAddr newName newLocalAddr newRemoteAddr : String)
    (listenOk writeOk1 writeOk2 : Bool) (rule : ForwardRule)
    (h : mapGet w.pm.rules originalLocalAddr = some rule)
    (hl : originalLocalAddr = normalizeLocalAddr newLocalAddr)
    (hr : rule.RemoteAddr = newRemoteAddr) :
    UpdateRule w originalLocalAddr newName newLocalAddr newRemoteAddr listenOk writeOk1 writeOk2
      = saveRules
          { w with pm := { w.pm with rules :=
              (mapModify w.pm.rules originalLocalAddr (fun r => { r with Name := newName })) } }
          writeOk1 := by
  unfold UpdateRule
  simp only [h]
  rw [if_pos ⟨hl, hr⟩]

/-- What `UpdateRule` does on the identity-change path. -/
theorem UpdateRule_of_changed (w : World)
    (originalLocalAddr newName newLocalAddr newRemoteAddr : String)
    (listenOk writeOk1 writeOk2 : Bool) (rule : ForwardRule)
    (h : mapGet w.pm.rules originalLocalAddr = some rule)
    (hne : ¬ (originalLocalAddr = normalizeLocalAddr newLocalAddr
              ∧ rule.RemoteAddr = newRemoteAddr)) :
    UpdateRule w originalLocalAddr newName newLocalAddr newRemoteAddr listenOk writeOk1 writeOk2
      = ((AddRule (DeleteRule w originalLocalAddr writeOk1).1 newName newLocalAddr
            newRemoteAddr listenOk writeOk2).1,
         ((AddRule (DeleteRule w originalLocalAddr writeOk1).1 newName newLocalAddr
            newRemoteAddr listenOk writeOk2).2.2).map
              (Error.updateAddFailed (normalizeLocalAddr newLocalAddr))) := by
  have hadd : ∀ w1 : World, AddRule w1 newName (normalizeLocalAddr newLocalAddr)
        newRemoteAddr listenOk writeOk2
      = AddRule w1 newName newLocalAddr newRemoteAddr listenOk writeOk2 := by
    intro w1
    unfold AddRule
    rw [normalizeLocalAddr_idem]
  unfold UpdateRule
  simp only [h]
  rw [if_neg hne, DeleteRule_of_get w originalLocalAddr writeOk1 rule h]
  simp only [hadd]
  split
  · rename_i w2 o err heq
    rw [heq]; rfl
  · rename_i w2 o heq
    rw [heq]; rfl

/-- A failing `AddRule` leaves the whole state as it was. -/
theorem AddRule_failure_unchanged (w : World) (name localAddr remoteAddr : String)
    (listenOk writeOk : Bool)
    (h : (AddRule w name localAddr remoteAddr listenOk writeOk).2.2 ≠ none) :
    (AddRule w name localAddr remoteAddr listenOk writeOk).1 = w := by
  cases hg : mapGet w.pm.rules (normalizeLocalAddr localAddr) with
  | some rule => rw [AddRule_of_present w name localAddr remoteAddr listenOk writeOk rule hg]
  | none =>
    cases listenOk with
    | false => rw [AddRule_of_listen_failed w name localAddr remoteAddr writeOk hg]
    | true =>
      rw [AddRule_of_free w name localAddr remoteAddr writeOk hg] at h
      exact absurd rfl h

/-- No call of `AddRule` closes a connection. -/
theorem AddRule_closedConns (w : World) (name localAddr remoteAddr : String)
    (listenOk writeOk : Bool) :
    (AddRule w name localAddr remoteAddr listenOk writeOk).1.net.closedConns
      = w.net.closedConns := by
  cases hg : mapGet w.pm.rules (normalizeLocalAddr localAddr) with
  | some rule => rw [AddRule_of_present w name localAddr remoteAddr listenOk writeOk rule hg]
  | none =>
    cases listenOk with
    | false => rw [AddRule_of_listen_failed w name localAddr remoteAddr writeOk hg]
    | true =>
      rw [AddRule_of_free w name localAddr remoteAddr writeOk hg]
      simp only [saveRules_net]

/-! ## Preservation of the table invariant -/

theorem snd_eq_of_nodup_fst {α β : Type} (L : List (α × β)) (h : (L.map Prod.fst).Nodup)
    (a : α) (b b' : β) (h1 : (a, b) ∈ L) (h2 : (a, b') ∈ L) : b = b' := by
  induction L with
  | nil => simp at h1
  | cons e L ih =>
    simp only [List.map_cons, List.nodup_cons] at h
    rcases List.mem_cons.1 h1 with e1 | e1 <;> rcases List.mem_cons.1 h2 with e2 | e2
    · rw [← e1] at e2
      exact (Prod.mk.inj e2).2.symm
    · exact absurd (List.mem_map.2 ⟨(a, b'), e2, by rw [← e1]⟩) h.1
    · exact absurd (List.mem_map.2 ⟨(a, b), e1, by rw [← e2]⟩) h.1
    · exact ih h.2 e1 e2

theorem mapDelete_of_not_mem (m : RuleMap) (k : String) (h : k ∉ mapKeys m) :
    mapDelete m k = m := by
  unfold mapDelete
  rw [List.filter_eq_self]
  intro e he
  have : e.1 ≠ k := fun h1 => h (List.mem_map.2 ⟨e, he, h1⟩)
  simpa using this

theorem mapKeys_mapDelete_nodup (m : RuleMap) (k : String) (h : (mapKeys m).Nodup) :
    (mapKeys (mapDelete m k)).Nodup :=
  List.Nodup.sublist (List.Sublist.map Prod.fst (List.filter_sublist m)) h

theorem mem_mapModify (m : RuleMap) (k : String) (f : ForwardRule → ForwardRule)
    (k' : String) (r' : ForwardRule) (h : (k', r') ∈ mapModify m k f) :
    ∃ r0, (k', r0) ∈ m ∧ (r' = r0 ∨ r' = f r0) := by
  obtain ⟨e, he, heq⟩ := List.mem_map.1 h
  obtain ⟨k1, r1⟩ := e
  by_cases hk : k1 = k
  · simp only [hk, if_true, Prod.mk.injEq] at heq
    obtain ⟨h1, h2⟩ := heq
    subst h1
    exact ⟨r1, hk ▸ he, Or.inr h2.symm⟩
  · simp only [hk, if_false, Prod.mk.injEq] at heq
    obtain ⟨h1, h2⟩ := heq
    subst h1
    exact ⟨r1, he, Or.inl h2.symm⟩

theorem mem_mapModify_of_mem (m : RuleMap) (k : String) (f : ForwardRule → ForwardRule)
    (k' : String) (r : ForwardRule) (h : (k', r) ∈ m) :
    (k', if k' = k then f r else r) ∈ mapModify m k f := by
  refine List.mem_map.2 ⟨(k', r), h, ?_⟩
  by_cases hk : k' = k <;> simp [hk]

theorem TableInv_saveRules (w : World) (writeOk : Bool) (h : TableInv w) :
    TableInv (saveRules w writeOk).1 := by
  cases writeOk <;> exact h

theorem TableInv_NewProxyManager (rulesPath : String) : TableInv (NewProxyManager rulesPath) := by
  refine ⟨List.nodup_nil, ?_, ?_, List.nodup_nil⟩
  · intro k r h
    simp [NewProxyManager] at h
  · intro l a h
    simp [NewProxyManager] at h

theorem TableInv_AddRule (w : World) (name localAddr remoteAddr : String)
    (listenOk writeOk : Bool) (h : TableInv w) :
    TableInv (AddRule w name localAddr remoteAddr listenOk writeOk).1 := by
  cases hg : mapGet w.pm.rules (normalizeLocalAddr localAddr) with
  | some rule =>
    rw [AddRule_of_present w name localAddr remoteAddr listenOk writeOk rule hg]
    exact h
  | none =>
    cases listenOk with
    | false =>
      rw [AddRule_of_listen_failed w name localAddr remoteAddr writeOk hg]
      exact h
    | true =>
      rw [AddRule_of_free w name localAddr remoteAddr writeOk hg]
      apply TableInv_saveRules
      obtain ⟨h1, h2, h3, h4⟩ := h
      have hk : normalizeLocalAddr localAddr ∉ mapKeys w.pm.rules :=
        (mapGet_eq_none_iff _ _).1 hg
      have hfresh : w.net.nextListener ∉ w.net.listening.map Prod.fst := by
        intro hm
        obtain ⟨e, he, heq⟩ := List.mem_map.1 hm
        have hlt := (h3 e.1 e.2 he).1
        rw [heq] at hlt
        exact Nat.lt_irrefl _ hlt
      refine ⟨?_, ?_, ?_, ?_⟩
      · show (mapKeys (mapSet w.pm.rules _ _)).Nodup
        rw [mapSet, mapDelete_of_not_mem _ _ hk, mapKeys, List.map_append]
        refine List.Nodup.append h1 (List.nodup_singleton _) ?_
        intro x hx hx'
        rw [List.map_singleton, List.mem_singleton] at hx'
        have hx2 : x = normalizeLocalAddr localAddr := hx'
        subst hx2
        exact hk hx
      · intro k r hmem
        change (k, r) ∈ mapSet w.pm.rules _ _ at hmem
        rw [mapSet, mapDelete_of_not_mem _ _ hk] at hmem
        rcases List.mem_append.1 hmem with hm | hm
        · obtain ⟨e1, l, e2, e3⟩ := h2 k r hm
          exact ⟨e1, l, e2, List.mem_append_left _ e3⟩
        · rw [List.mem_singleton] at hm
          obtain ⟨hk1, hr1⟩ := Prod.mk.inj hm
          subst hk1 hr1
          exact ⟨rfl, w.net.nextListener, rfl,
            List.mem_append_right _ (List.mem_singleton_self _)⟩
      · intro l a hmem
        change (l, a) ∈ w.net.listening ++ [(w.net.nextListener, _)] at hmem
        show l < w.net.nextListener + 1 ∧ ∃ r, (a, r) ∈ mapSet w.pm.rules _ _ ∧ _
        rw [mapSet, mapDelete_of_not_mem _ _ hk]
        rcases List.mem_append.1 hmem with hm | hm
        · obtain ⟨e1, r, e2, e3⟩ := h3 l a hm
          exact ⟨Nat.lt_succ_of_lt e1, r, List.mem_append_left _ e2, e3⟩
        · rw [List.mem_singleton] at hm
          obtain ⟨hl1, ha1⟩ := Prod.mk.inj hm
          subst hl1 ha1
          exact ⟨Nat.lt_succ_self _, _,
            List.mem_append_right _ (List.mem_singleton_self _), rfl⟩
      · show ((w.net.listening ++ [(w.net.nextListener, _)]).map Prod.fst).Nodup
        rw [List.map_append]
        refine List.Nodup.append h4 (List.nodup_singleton _) ?_
        intro x hx hx'
        rw [List.map_singleton, List.mem_singleton] at hx'
        have hx2 : x = w.net.nextListener := hx'
        subst hx2
        exact hfresh hx

theorem TableInv_DeleteRule (w : World) (localAddr : String) (writeOk : Bool)
    (h : TableInv w) : TableInv (DeleteRule w localAddr writeOk).1 := by
  cases hg : mapGet w.pm.rules localAddr with
  | none =>
    unfold DeleteRule
    rw [hg]
    exact h
  | some rule =>
    rw [DeleteRule_of_get w localAddr writeOk rule hg]
    apply TableInv_saveRules
    obtain ⟨h1, h2, h3, h4⟩ := h
    have hmem := mem_of_mapGet _ _ _ hg
    obtain ⟨-, l, hl, hlk⟩ := h2 localAddr rule hmem
    have hlist : (rule.activeConns.foldl connClose (listenerClose w.net rule.listener)).listening
        = w.net.listening.filter (fun e => decide (e.1 ≠ l)) := by
      rw [foldl_connClose_listening, hl]; rfl
    have hnext : (rule.activeConns.foldl connClose
        (listenerClose w.net rule.listener)).nextListener = w.net.nextListener := by
      rw [foldl_connClose_nextListener, hl]; rfl
    refine ⟨mapKeys_mapDelete_nodup _ _ h1, ?_, ?_, ?_⟩
    · intro k r hm
      obtain ⟨hm1, hm2⟩ := (mem_mapDelete _ _ _).1 hm
      obtain ⟨e1, l', e2, e3⟩ := h2 k r hm1
      refine ⟨e1, l', e2, ?_⟩
      show (l', k) ∈ (rule.activeConns.foldl connClose
        (listenerClose w.net rule.listener)).listening
      rw [hlist, List.mem_filter]
      refine ⟨e3, ?_⟩
      have : l' ≠ l := by
        rintro rfl
        exact hm2 (snd_eq_of_nodup_fst _ h4 l' k localAddr e3 hlk)
      simpa using this
    · intro l' a hm
      change (l', a) ∈ (rule.activeConns.foldl connClose
        (listenerClose w.net rule.listener)).listening at hm
      rw [hlist, List.mem_filter] at hm
      obtain ⟨hm1, hm2⟩ := hm
      have hne : l' ≠ l := by simpa using hm2
      obtain ⟨e1, r, e2, e3⟩ := h3 l' a hm1
      refine ⟨by rw [hnext]; exact e1, r, ?_, e3⟩
      refine (mem_mapDelete _ _ _).2 ⟨e2, ?_⟩
      rintro rfl
      have hr : r = rule := snd_eq_of_nodup_fst _ h1 _ r rule e2 hmem
      rw [hr, hl] at e3
      exact hne (Option.some.inj e3).symm
    · show ((rule.activeConns.foldl connClose
        (listenerClose w.net rule.listener)).listening.map Prod.fst).Nodup
      rw [hlist]
      exact List.Nodup.sublist (List.Sublist.map Prod.fst (List.filter_sublist _)) h4

theorem TableInv_UpdateRule (w : World)
    (originalLocalAddr newName newLocalAddr newRemoteAddr : String)
    (listenOk writeOk1 writeOk2 : Bool) (h : TableInv w) :
    TableInv (UpdateRule w originalLocalAddr newName newLocalAddr newRemoteAddr
      listenOk writeOk1 writeOk2).1 := by
  cases hg : mapGet w.pm.rules originalLocalAddr with
  | none =>
    unfold UpdateRule
    simp only [hg]
    exact h
  | some rule =>
    by_cases hc : originalLocalAddr = normalizeLocalAddr newLocalAddr
        ∧ rule.RemoteAddr = newRemoteAddr
    · rw [UpdateRule_of_same w originalLocalAddr newName newLocalAddr newRemoteAddr
        listenOk writeOk1 writeOk2 rule hg hc.1 hc.2]
      apply TableInv_saveRules
      obtain ⟨h1, h2, h3, h4⟩ := h
      refine ⟨?_, ?_, ?_, h4⟩
      · show (mapKeys (mapModify w.pm.rules originalLocalAddr
          (fun r => { r with Name := newName }))).Nodup
        rw [mapKeys_mapModify]; exact h1
      · intro k r hm
        have hm' : (k, r) ∈ mapModify w.pm.rules originalLocalAddr
          (fun r => { r with Name := newName }) := hm
        obtain ⟨r0, hr0, hr⟩ := mem_mapModify _ _ _ _ _ hm'
        obtain ⟨e1, l, e2, e3⟩ := h2 k r0 hr0
        rcases hr with hr | hr <;> subst hr <;> exact ⟨e1, l, e2, e3⟩
      · intro l a hm
        obtain ⟨e1, r, e2, e3⟩ := h3 l a hm
        refine ⟨e1, _, mem_mapModify_of_mem _ originalLocalAddr
          (fun r => { r with Name := newName }) _ _ e2, ?_⟩
        by_cases hk : a = originalLocalAddr <;> simp [hk, e3]
    · rw [UpdateRule_of_changed w originalLocalAddr newName newLocalAddr newRemoteAddr
        listenOk writeOk1 writeOk2 rule hg hc]
      exact TableInv_AddRule _ _ _ _ _ _ (TableInv_DeleteRule _ _ _ h)

theorem TableInv_runOps (ops : List Op) (w : World) (h : TableInv w) :
    TableInv (runOps w ops) := by
  induction ops generalizing w with
  | nil => exact h
  | cons op ops ih =>
    rw [runOps, List.foldl_cons]
    apply ih
    cases op with
    | add name localAddr remoteAddr listenOk writeOk => exact TableInv_AddRule _ _ _ _ _ _ h
    | update o n l r lo w1 w2 => exact TableInv_UpdateRule _ _ _ _ _ _ _ _ h
    | delete localAddr writeOk => exact TableInv_DeleteRule _ _ _ h

/-! ## The invariant of a relay session -/

theorem SessionInv_step (s s' : Session) (st : Step) (hi : SessionInv s)
    (h : step s st = some s') : SessionInv s' := by
  obtain ⟨main, tc, tr, wg, dialed, ia, cc, ro, rc, cwc, rwc⟩ := s
  cases st with
  | register =>
    simp only [step] at h
    split at h
    · rename_i hm
      subst hm
      cases h
      simp [SessionInv, notDialed] at hi ⊢
      simp [hi]
    · cases h
  | spawn =>
    simp only [step] at h
    split at h
    · rename_i hm
      subst hm
      cases h
      simp [SessionInv, notDialed] at hi ⊢
      simp [hi]
    · cases h
  | dial ok =>
    cases ok <;> simp only [step] at h <;> split at h
    · rename_i hm
      subst hm
      cases h
      simp [SessionInv, notDialed, tearingDown] at hi ⊢
      simp [hi]
    · cases h
    · rename_i hm
      subst hm
      cases h
      simp [SessionInv, notDialed, tearingDown, copiesLeft] at hi ⊢
      simp [hi]
    · cases h
  | copyReturns d =>
    cases d <;> simp only [step] at h <;> split at h
    · rename_i hm
      subst hm
      cases h
      cases main <;> simp [SessionInv, notDialed, tearingDown, copiesLeft] at hi ⊢
      simp [hi]
    · cases h
    · rename_i hm
      subst hm
      cases h
      cases main <;> simp [SessionInv, notDialed, tearingDown, copiesLeft] at hi ⊢
      simp [hi]
    · cases h
  | finish d =>
    cases d <;> simp only [step] at h <;> split at h
    · rename_i hm
      subst hm
      cases h
      cases main <;> simp [SessionInv, notDialed, tearingDown, copiesLeft] at hi ⊢
      simp [hi]
    · cases h
    · rename_i hm
      subst hm
      cases h
      cases main <;> simp [SessionInv, notDialed, tearingDown, copiesLeft] at hi ⊢
      simp [hi]
    · cases h
  | waitReturns =>
    simp only [step] at h
    split at h
    · rename_i hm
      obtain ⟨hm1, hm2⟩ := hm
      subst hm1 hm2
      cases h
      simp [SessionInv, copiesLeft] at hi ⊢
      obtain ⟨h1, h2, h3, h4, h5, h6, h7, h8⟩ := hi
      refine ⟨h1, h2, h3, h4, h5, ?_, ?_⟩ <;> cases tc <;> cases tr <;> simp at h6 h7 h8 ⊢
    · cases h
  | closeRemote =>
    simp only [step] at h
    split at h
    · rename_i hm
      subst hm
      cases h
      simp [SessionInv, notDialed, tearingDown] at hi ⊢
      simp [hi]
    · cases h
  | deregister =>
    simp only [step] at h
    split at h
    · rename_i hm
      subst hm
      cases h
      simp [SessionInv, notDialed, tearingDown] at hi ⊢
      simp [hi]
    · cases h
  | closeClient =>
    simp only [step] at h
    split at h
    · rename_i hm
      subst hm
      cases h
      simp [SessionInv, notDialed, tearingDown] at hi ⊢
      simp [hi]
    · cases h

theorem SessionInv_init : SessionInv Session.init := by
  simp [SessionInv, Session.init, notDialed]

theorem SessionInv_runSteps (steps : List Step) (s s' : Session) (hi : SessionInv s)
    (h : runSteps s steps = some s') : SessionInv s' := by
  induction steps generalizing s with
  | nil =>
    simp only [runSteps, Option.some.injEq] at h
    exact h ▸ hi
  | cons st rest ih =>
    simp only [runSteps] at h
    cases hs : step s st with
    | none => rw [hs] at h; cases h
    | some s1 =>
      rw [hs] at h
      exact ih s1 (SessionInv_step s s1 st hi hs) h

/-- After a failed dial the deferred calls alone remain: at most two moves,
neither of which waits for the environment, end the session. -/
theorem dial_failed_terminates (s : Session) (hi : SessionInv s)
    (hd : s.dialed = some false) :
    (s.main = MainPc.deregistering ∨ s.main = MainPc.closingClient
        ∨ s.main = MainPc.terminated)
      ∧ ∃ rest t, rest.length ≤ 2 ∧ runSteps s rest = some t ∧ t.main = MainPc.terminated
          ∧ t.inActiveSet = false ∧ t.clientClosed = true ∧ t.remoteOpened = false := by
  obtain ⟨main, tc, tr, wg, dialed, ia, cc, ro, rc, cwc, rwc⟩ := s
  simp only at hd
  subst hd
  cases main <;> simp [SessionInv, notDialed, tearingDown] at hi
  · exact ⟨by simp, [Step.deregister, Step.closeClient], _, by simp, rfl, rfl, rfl, rfl, hi.2.2.1⟩
  · exact ⟨by simp, [Step.closeClient], _, by simp, rfl, rfl, hi.1, rfl, hi.2.2.1⟩
  · exact ⟨by simp, [], _, by simp, rfl, rfl, hi.1, hi.2.1, hi.2.2.1⟩

/-- The failed dial, from a session at the dial: the move is possible and
only sets the result of the dial and the program point; after it the one
possible move is the deferred removal from the active set, after that the
one possible move is the deferred `clientConn.Close()`, and the three moves
end the session. -/
theorem dial_failed_run (s : Session) (hi : SessionInv s) (hm : s.main = MainPc.dialing) :
    step s (Step.dial false)
        = some { s with main := MainPc.deregistering, dialed := some false }
      ∧ (∀ st s2, step { s with main := MainPc.deregistering, dialed := some false } st
            = some s2 → st = Step.deregister)
      ∧ (∀ st s2, step { s with main := MainPc.closingClient, dialed := some false,
                                inActiveSet := false } st = some s2 → st = Step.closeClient)
      ∧ runSteps s [Step.dial false, Step.deregister, Step.closeClient]
          = some { s with main := MainPc.terminated, dialed := some false,
                          inActiveSet := false, clientClosed := true }
      ∧ s.remoteOpened = false ∧ s.remoteClosed = false
      ∧ s.toClient = CopyPc.notStarted ∧ s.toRemote = CopyPc.notStarted := by
  obtain ⟨main, tc, tr, wg, dialed, ia, cc, ro, rc, cwc, rwc⟩ := s
  simp only at hm
  subst hm
  simp only [SessionInv, notDialed] at hi
  obtain ⟨h1, h2, h3, h4, h5, h6, h7, h8⟩ := hi
  subst h1 h2 h3 h4 h5 h6 h7 h8
  refine ⟨rfl, ?_, ?_, rfl, rfl, rfl, rfl, rfl⟩
  · intro st s2 hst
    cases st with
    | dial ok => cases ok <;> simp [step] at hst
    | copyReturns d => cases d <;> simp [step] at hst
    | finish d => cases d <;> simp [step] at hst
    | deregister => rfl
    | _ => simp [step] at hst
  · intro st s2 hst
    cases st with
    | dial ok => cases ok <;> simp [step] at hst
    | copyReturns d => cases d <;> simp [step] at hst
    | finish d => cases d <;> simp [step] at hst
    | closeClient => rfl
    | _ => simp [step] at hst

/-- The successful dial, from a session at the dial: the remote connection
exists, the wait group counts two and both copy goroutines are inside
`io.Copy`, the body at `wg.Wait()`. -/
theorem dial_ok_step (s : Session) (hm : s.main = MainPc.dialing) :
    step s (Step.dial true)
      = some { s with main := MainPc.waiting, dialed := some true, remoteOpened := true,
                      wg := s.wg + 2, toClient := CopyPc.copying,
                      toRemote := CopyPc.copying } := by
  simp [step, hm]

/-- After a successful dial the session can always be brought to its end:
`drainSchedule` is a possible schedule and ends in `terminated`. -/
theorem dial_ok_drains (s : Session) (hi : SessionInv s) (hd : s.dialed = some true) :
    ∃ t, runSteps s (drainSchedule s) = some t ∧ t.main = MainPc.terminated := by
  obtain ⟨main, tc, tr, wg, dialed, ia, cc, ro, rc, cwc, rwc⟩ := s
  simp only at hd
  subst hd
  cases main <;> simp [SessionInv, notDialed, tearingDown] at hi
  · obtain ⟨h1, h2, h3, h4, h5, h6, h7⟩ := hi
    subst h1 h2 h3 h4
    cases tc <;> cases tr <;> simp [copiesLeft] at h5 h6 h7 <;> subst h7 <;>
      simp [drainSchedule, copyDrain, mainDrain, runSteps, step]
  · obtain ⟨h1, h2, h3, h4, h5, h6⟩ := hi
    subst h1 h2 h3 h4 h5 h6
    simp [drainSchedule, copyDrain, mainDrain, runSteps, step]
  · obtain ⟨h1, h2, h3, h4, h5, h6⟩ := hi
    subst h1 h2 h3 h4 h5 h6
    simp [drainSchedule, copyDrain, mainDrain, runSteps, step]
  · obtain ⟨h1, h2, h3, h4, h5, h6⟩ := hi
    subst h1 h2 h3 h4 h5 h6
    simp [drainSchedule, copyDrain, mainDrain, runSteps, step]
  · obtain ⟨h1, h2, h3, h4, h5, h6⟩ := hi
    subst h1 h2 h3 h4 h5 h6
    simp [drainSchedule, copyDrain, mainDrain, runSteps, step]

/-! ## Lookup by the address as given -/

/-- An address without a colon differs from its normalized form. -/
theorem ne_normalizeLocalAddr_of_not_mem (port : String) (h : ':' ∉ port.data) :
    port ≠ normalizeLocalAddr port := by
  intro heq
  have hc := colon_mem_normalizeLocalAddr port
  rw [← heq] at hc
  exact h hc

/-- What `DeleteRule` does when the address is no key of the table. -/
theorem DeleteRule_of_absent (w : World) (localAddr : String) (writeOk : Bool)
    (h : mapGet w.pm.rules localAddr = none) :
    DeleteRule w localAddr writeOk = (w, some (Error.ruleNotFound localAddr)) := by
  unfold DeleteRule
  rw [h]

/-- What `UpdateRule` does when the original address is no key of the
table. -/
theorem UpdateRule_of_absent (w : World)
    (originalLocalAddr newName newLocalAddr newRemoteAddr : String)
    (listenOk writeOk1 writeOk2 : Bool) (h : mapGet w.pm.rules originalLocalAddr = none) :
    UpdateRule w originalLocalAddr newName newLocalAddr newRemoteAddr listenOk writeOk1 writeOk2
      = (w, some (Error.ruleNotFound originalLocalAddr)) := by
  unfold UpdateRule
  simp only [h]

/-- The table after a successful `AddRule`: the old table with one entry
more, under the normalized address. -/
theorem AddRule_success_rules (w w1 : World) (name localAddr remoteAddr : String)
    (listenOk writeOk : Bool) (r1 : Option ForwardRule)
    (h : AddRule w name localAddr remoteAddr listenOk writeOk = (w1, r1, none)) :
    normalizeLocalAddr localAddr ∉ mapKeys w.pm.rules
      ∧ ∃ rule, w1.pm.rules = w.pm.rules ++ [(normalizeLocalAddr localAddr, rule)] := by
  have hs : (AddRule w name localAddr remoteAddr listenOk writeOk).2.2 = none := by rw [h]
  obtain ⟨hfree, hok⟩ := (AddRule_success_iff _ _ _ _ _ _).1 hs
  subst hok
  have hk := (mapGet_eq_none_iff _ _).1 hfree
  rw [AddRule_of_free w name localAddr remoteAddr writeOk hfree] at h
  have hw : w1.pm.rules = mapSet w.pm.rules (normalizeLocalAddr localAddr)
      { Name := name, LocalAddr := normalizeLocalAddr localAddr, RemoteAddr := remoteAddr,
        listener := some w.net.nextListener, activeConns := [] } := by
    have h1 := congrArg (fun x => x.1.pm.rules) h
    simp only [saveRules_pm] at h1
    exact h1.symm
  rw [mapSet, mapDelete_of_not_mem _ _ hk] at hw
  exact ⟨hk, _, hw⟩

/-- Deleting the key of the entry added last gives the table back. -/
theorem mapDelete_append_singleton (m : RuleMap) (k : String) (r : ForwardRule)
    (h : k ∉ mapKeys m) : mapDelete (m ++ [(k, r)]) k = m := by
  have h1 : mapDelete (m ++ [(k, r)]) k = mapDelete m k ++ mapDelete [(k, r)] k := by
    simp [mapDelete, List.filter_append]
  rw [h1, mapDelete_of_not_mem _ _ h]
  simp [mapDelete]

/-! ## The claims -/

/-- C1. Uniqueness: when the normalized `localAddr` is already a key of the
rule table, `AddRule` fails with the duplicate-rule error whatever the
outcome of a listen attempt would be, and the whole state (the table, the
sockets, the rules file) is the one before the call; `GetRules` has the same
content and the same length before and after. -/
theorem AddRule_duplicate_unchanged (w : World) (name localAddr remoteAddr : String)
    (listenOk writeOk : Bool)
    (h : normalizeLocalAddr localAddr ∈ mapKeys w.pm.rules) :
    AddRule w name localAddr remoteAddr listenOk writeOk
        = (w, none, some (Error.ruleExists (normalizeLocalAddr localAddr)))
      ∧ GetRules (AddRule w name localAddr remoteAddr listenOk writeOk).1 = GetRules w
      ∧ (GetRules (AddRule w name localAddr remoteAddr listenOk writeOk).1).length
          = (GetRules w).length := by
  obtain ⟨rule, hr⟩ := (mapGet_isSome_iff _ _).2 h
  have h1 := AddRule_of_present w name localAddr remoteAddr listenOk writeOk rule hr
  rw [h1]
  exact ⟨rfl, rfl, rfl⟩

/-- Witness of C1: a second `AddRule` for port `8080`, with a listen that
would succeed. -/
theorem AddRule_duplicate_unchanged_witness :
    normalizeLocalAddr "8080" ∈ mapKeys sampleWorld.pm.rules
      ∧ (AddRule sampleWorld "again" "8080" "10.0.0.9:80" true true
            = (sampleWorld, none, some (Error.ruleExists (normalizeLocalAddr "8080")))
          ∧ GetRules (AddRule sampleWorld "again" "8080" "10.0.0.9:80" true true).1
              = GetRules sampleWorld
          ∧ (GetRules (AddRule sampleWorld "again" "8080" "10.0.0.9:80" true true).1).length
              = (GetRules sampleWorld).length) :=
  ⟨by decide,
   AddRule_duplicate_unchanged sampleWorld "again" "8080" "10.0.0.9:80" true true (by decide)⟩

/-- C2, as the code has it: when `AddRule` succeeds the rule is stored
under the key `normalizeLocalAddr localAddr`, which is also its `LocalAddr`.
An address without a colon is stored with the host `0.0.0.0` put before it;
an address that has a colon is stored as it was given, whatever stands
before the colon. -/
theorem AddRule_stored_address (w : World) (name localAddr remoteAddr : String)
    (listenOk writeOk : Bool)
    (h : (AddRule w name localAddr remoteAddr listenOk writeOk).2.2 = none) :
    (∃ rule, mapGet (AddRule w name localAddr remoteAddr listenOk writeOk).1.pm.rules
                (normalizeLocalAddr localAddr) = some rule
        ∧ rule.LocalAddr = normalizeLocalAddr localAddr)
      ∧ (':' ∉ localAddr.data →
            normalizeLocalAddr localAddr = "0.0.0.0:" ++ localAddr
          ∧ hostPart (normalizeLocalAddr localAddr) = "0.0.0.0")
      ∧ (':' ∈ localAddr.data → normalizeLocalAddr localAddr = localAddr) := by
  obtain ⟨hfree, hok⟩ := (AddRule_success_iff _ _ _ _ _ _).1 h
  subst hok
  refine ⟨?_, ?_, normalizeLocalAddr_of_mem localAddr⟩
  · rw [AddRule_of_free w name localAddr remoteAddr writeOk hfree]
    simp only [saveRules_pm]
    exact ⟨_, mapGet_mapSet_self _ _ _, rfl⟩
  · intro hc
    rw [normalizeLocalAddr_of_not_mem localAddr hc]
    exact ⟨rfl, hostPart_default_host localAddr hc⟩

/-- Witness of C2 as amended: adding port `8080` to a new manager. -/
theorem AddRule_stored_address_witness :
    (AddRule (NewProxyManager "rules.json") "web" "8080" "10.0.0.1:80" true true).2.2 = none
      ∧ ((∃ rule, mapGet (AddRule (NewProxyManager "rules.json") "web" "8080" "10.0.0.1:80"
                    true true).1.pm.rules (normalizeLocalAddr "8080") = some rule
            ∧ rule.LocalAddr = normalizeLocalAddr "8080")
          ∧ (':' ∉ "8080".data →
                normalizeLocalAddr "8080" = "0.0.0.0:" ++ "8080"
              ∧ hostPart (normalizeLocalAddr "8080") = "0.0.0.0")
          ∧ (':' ∈ "8080".data → normalizeLocalAddr "8080" = "8080")) :=
  ⟨by decide,
   AddRule_stored_address (NewProxyManager "rules.json") "web" "8080" "10.0.0.1:80"
     true true (by decide)⟩

/-- Counterexample to C2 as stated: `AddRule` with the address `:8080`
succeeds on a new manager, and the rule is stored under the key `:8080`
with `LocalAddr` `:8080`, whose host part is empty. -/
theorem AddRule_empty_host_counterexample :
    (AddRule (NewProxyManager "rules.json") "web" ":8080" "10.0.0.1:80" true true).2.2 = none
      ∧ mapKeys (AddRule (NewProxyManager "rules.json") "web" ":8080" "10.0.0.1:80"
          true true).1.pm.rules = [":8080"]
      ∧ (mapGet (AddRule (NewProxyManager "rules.json") "web" ":8080" "10.0.0.1:80"
          true true).1.pm.rules ":8080").map (fun r => r.LocalAddr) = some ":8080"
      ∧ hostPart ":8080" = "" := by
  decide

/-- C3. When `localAddr` is a key of the table, holding `rule`, `DeleteRule`
returns no error and afterwards: no listening socket with the rule's
listener handle is open, every connection of the rule's active set has been
closed, `localAddr` is no key of the table, every other key holds the rule
it held, every other listening socket is still open, and no connection
outside the rule's active set has been closed by the call. -/
theorem DeleteRule_present (w : World) (localAddr : String) (writeOk : Bool)
    (rule : ForwardRule) (h : mapGet w.pm.rules localAddr = some rule) :
    (DeleteRule w localAddr writeOk).2 = none
      ∧ (∀ l, rule.listener = some l →
            ∀ a, (l, a) ∉ (DeleteRule w localAddr writeOk).1.net.listening)
      ∧ (∀ c ∈ rule.activeConns, c ∈ (DeleteRule w localAddr writeOk).1.net.closedConns)
      ∧ localAddr ∉ mapKeys (DeleteRule w localAddr writeOk).1.pm.rules
      ∧ (∀ k, k ≠ localAddr →
            mapGet (DeleteRule w localAddr writeOk).1.pm.rules k = mapGet w.pm.rules k)
      ∧ (∀ e ∈ w.net.listening, some e.1 ≠ rule.listener →
            e ∈ (DeleteRule w localAddr writeOk).1.net.listening)
      ∧ (DeleteRule w localAddr writeOk).1.net.closedConns
          = w.net.closedConns ++ rule.activeConns := by
  rw [DeleteRule_of_get w localAddr writeOk rule h]
  simp only [saveRules_pm, saveRules_net, foldl_connClose_listening,
    foldl_connClose_closedConns]
  refine ⟨trivial, ?_, ?_, ?_, ?_, ?_, ?_⟩
  · intro l hl a hmem
    rw [hl] at hmem
    simp [listenerClose, List.mem_filter] at hmem
  · intro c hc
    exact List.mem_append_right _ hc
  · rw [← mapGet_eq_none_iff]
    exact mapGet_mapDelete_self _ _
  · intro k hk
    exact mapGet_mapDelete_ne _ _ _ hk
  · intro e he hne
    cases hl : rule.listener with
    | none => simpa [listenerClose] using he
    | some l =>
      rw [hl] at hne
      have : e.1 ≠ l := fun h1 => hne (by rw [h1])
      simp [listenerClose, List.mem_filter, he, this]
  · cases hl : rule.listener <;> simp [listenerClose]

/-- Witness of C3: deleting the first of two rules. -/
theorem DeleteRule_present_witness :
    mapGet sampleWorld2.pm.rules "0.0.0.0:8080"
        = some { Name := "web", LocalAddr := "0.0.0.0:8080", RemoteAddr := "10.0.0.1:80",
                 listener := some 0, activeConns := [7, 9] }
      ∧ (DeleteRule sampleWorld2 "0.0.0.0:8080" true).2 = none
      ∧ (DeleteRule sampleWorld2 "0.0.0.0:8080" true).1.net.closedConns = [] ++ [7, 9]
      ∧ "0.0.0.0:8080" ∉ mapKeys (DeleteRule sampleWorld2 "0.0.0.0:8080" true).1.pm.rules :=
  have t := DeleteRule_present sampleWorld2 "0.0.0.0:8080" true
    { Name := "web", LocalAddr := "0.0.0.0:8080", RemoteAddr := "10.0.0.1:80",
      listener := some 0, activeConns := [7, 9] } (by decide)
  ⟨by decide, t.1, t.2.2.2.2.2.2, t.2.2.2.1⟩

/-- C4. Metadata-only update: when `originalLocalAddr` is a key of the table,
holding `rule`, the normalized `newLocalAddr` is `originalLocalAddr` and
`newRemoteAddr` is the rule's remote address, `UpdateRule` leaves under that
key a rule with the name `newName` and the `LocalAddr`, `RemoteAddr`,
listener and active connections of `rule`; the keys of the table are
unchanged, every other key holds the rule it held, and the sockets are
untouched: no listener and no connection is closed or opened. -/
theorem UpdateRule_metadata_only (w : World)
    (originalLocalAddr newName newLocalAddr newRemoteAddr : String)
    (listenOk writeOk1 writeOk2 : Bool) (rule : ForwardRule)
    (h : mapGet w.pm.rules originalLocalAddr = some rule)
    (hl : normalizeLocalAddr newLocalAddr = originalLocalAddr)
    (hr : newRemoteAddr = rule.RemoteAddr) :
    mapGet (UpdateRule w originalLocalAddr newName newLocalAddr newRemoteAddr
              listenOk writeOk1 writeOk2).1.pm.rules originalLocalAddr
        = some { Name := newName, LocalAddr := rule.LocalAddr, RemoteAddr := rule.RemoteAddr,
                 listener := rule.listener, activeConns := rule.activeConns }
      ∧ mapKeys (UpdateRule w originalLocalAddr newName newLocalAddr newRemoteAddr
              listenOk writeOk1 writeOk2).1.pm.rules = mapKeys w.pm.rules
      ∧ (∀ k, k ≠ originalLocalAddr →
            mapGet (UpdateRule w originalLocalAddr newName newLocalAddr newRemoteAddr
              listenOk writeOk1 writeOk2).1.pm.rules k = mapGet w.pm.rules k)
      ∧ (UpdateRule w originalLocalAddr newName newLocalAddr newRemoteAddr
              listenOk writeOk1 writeOk2).1.net = w.net := by
  rw [UpdateRule_of_same w originalLocalAddr newName newLocalAddr newRemoteAddr
    listenOk writeOk1 writeOk2 rule h hl.symm hr.symm]
  simp only [saveRules_pm, saveRules_net]
  refine ⟨?_, mapKeys_mapModify _ _ _, ?_, trivial⟩
  · rw [mapGet_mapModify_self, h]; rfl
  · intro k hk
    exact mapGet_mapModify_ne _ _ _ _ hk

/-- Witness of C4: renaming the first of two rules, the port given without
a host. -/
theorem UpdateRule_metadata_only_witness :
    mapGet sampleWorld2.pm.rules "0.0.0.0:8080"
        = some { Name := "web", LocalAddr := "0.0.0.0:8080", RemoteAddr := "10.0.0.1:80",
                 listener := some 0, activeConns := [7, 9] }
      ∧ normalizeLocalAddr "8080" = "0.0.0.0:8080"
      ∧ mapGet (UpdateRule sampleWorld2 "0.0.0.0:8080" "site" "8080" "10.0.0.1:80"
              true true true).1.pm.rules "0.0.0.0:8080"
          = some { Name := "site", LocalAddr := "0.0.0.0:8080", RemoteAddr := "10.0.0.1:80",
                   listener := some 0, activeConns := [7, 9] }
      ∧ (UpdateRule sampleWorld2 "0.0.0.0:8080" "site" "8080" "10.0.0.1:80"
              true true true).1.net = sampleWorld2.net :=
  have t := UpdateRule_metadata_only sampleWorld2 "0.0.0.0:8080" "site" "8080" "10.0.0.1:80"
    true true true
    { Name := "web", LocalAddr := "0.0.0.0:8080", RemoteAddr := "10.0.0.1:80",
      listener := some 0, activeConns := [7, 9] } (by decide) (by decide) rfl
  ⟨by decide, by decide, t.1, t.2.2.2⟩

/-- C5. Identity-change update: when `originalLocalAddr` is a key of the
table, holding `rule`, and the normalized `newLocalAddr` or `newRemoteAddr`
differs from the stored one, the state after `UpdateRule` (`wU`) is the
state after `DeleteRule(originalLocalAddr)` (`wD`) followed by
`AddRule(newName, newLocalAddr, newRemoteAddr)` (`wA`), and `UpdateRule`
returns an error exactly when that `AddRule` does, wrapping its error. The
old listener is closed in `wD` and the old active connections are closed in
`wU`. When the `AddRule` fails, the table is the old one without
`originalLocalAddr`: that key is absent, every other key holds the rule it
held, no rule is added and no socket is opened; on a bind failure the new
address is no key of the table. -/
theorem UpdateRule_identity_change (w wU wD wA : World)
    (originalLocalAddr newName newLocalAddr newRemoteAddr : String)
    (listenOk writeOk1 writeOk2 : Bool) (rule : ForwardRule)
    (eU eD eA : Option Error) (rA : Option ForwardRule)
    (h : mapGet w.pm.rules originalLocalAddr = some rule)
    (hne : normalizeLocalAddr newLocalAddr ≠ originalLocalAddr
            ∨ newRemoteAddr ≠ rule.RemoteAddr)
    (hU : UpdateRule w originalLocalAddr newName newLocalAddr newRemoteAddr
            listenOk writeOk1 writeOk2 = (wU, eU))
    (hD : DeleteRule w originalLocalAddr writeOk1 = (wD, eD))
    (hA : AddRule wD newName newLocalAddr newRemoteAddr listenOk writeOk2 = (wA, rA, eA)) :
    wU = wA
      ∧ eD = none
      ∧ eU = eA.map (Error.updateAddFailed (normalizeLocalAddr newLocalAddr))
      ∧ (∀ l, rule.listener = some l → ∀ a, (l, a) ∉ wD.net.listening)
      ∧ (∀ c ∈ rule.activeConns, c ∈ wU.net.closedConns)
      ∧ (eA ≠ none →
            eU ≠ none
          ∧ wU.pm.rules = mapDelete w.pm.rules originalLocalAddr
          ∧ originalLocalAddr ∉ mapKeys wU.pm.rules
          ∧ (∀ k, k ≠ originalLocalAddr → mapGet wU.pm.rules k = mapGet w.pm.rules k)
          ∧ wU.net = wD.net)
      ∧ (eA = some (Error.listenFailed (normalizeLocalAddr newLocalAddr)) →
            normalizeLocalAddr newLocalAddr ∉ mapKeys wU.pm.rules) := by
  have hcond : ¬ (originalLocalAddr = normalizeLocalAddr newLocalAddr
      ∧ rule.RemoteAddr = newRemoteAddr) := by
    rintro ⟨h1, h2⟩
    rcases hne with h3 | h3
    · exact h3 h1.symm
    · exact h3 h2.symm
  have hUeq := UpdateRule_of_changed w originalLocalAddr newName newLocalAddr newRemoteAddr
    listenOk writeOk1 writeOk2 rule h hcond
  have hDel := DeleteRule_present w originalLocalAddr writeOk1 rule h
  rw [hD] at hUeq hDel
  rw [hU] at hUeq
  simp only at hUeq hDel
  rw [hA] at hUeq
  simp only [Prod.mk.injEq] at hUeq
  obtain ⟨hw, he⟩ := hUeq
  obtain ⟨hDe, hDl, hDc, hDk, hDo, -, -⟩ := hDel
  have hclosed : wA.net.closedConns = wD.net.closedConns := by
    have := AddRule_closedConns wD newName newLocalAddr newRemoteAddr listenOk writeOk2
    rw [hA] at this
    exact this
  have hDrules : wD.pm.rules = mapDelete w.pm.rules originalLocalAddr := by
    have := DeleteRule_of_get w originalLocalAddr writeOk1 rule h
    rw [hD] at this
    have h1 := congrArg (fun x => x.1.pm.rules) this
    simpa only [saveRules_pm] using h1
  have hfail : eA ≠ none → wA = wD := by
    intro hea
    have := AddRule_failure_unchanged wD newName newLocalAddr newRemoteAddr listenOk writeOk2
    rw [hA] at this
    exact this hea
  subst hw
  refine ⟨rfl, hDe, he, hDl, ?_, ?_, ?_⟩
  · intro c hc
    rw [hclosed]
    exact hDc c hc
  · intro hea
    rw [hfail hea]
    refine ⟨?_, hDrules, hDk, hDo, rfl⟩
    rw [he]
    cases eA with
    | none => exact absurd rfl hea
    | some e => simp
  · intro hea
    rw [hfail (by rw [hea]; simp)]
    have hs := AddRule_success_iff wD newName newLocalAddr newRemoteAddr listenOk writeOk2
    cases hg : mapGet wD.pm.rules (normalizeLocalAddr newLocalAddr) with
    | none => exact (mapGet_eq_none_iff _ _).1 hg
    | some r =>
      have := AddRule_of_present wD newName newLocalAddr newRemoteAddr listenOk writeOk2 r hg
      rw [hA] at this
      simp only [Prod.mk.injEq, hea] at this
      exact absurd this.2.2 (by simp)

/-- Witness of C5: the first of two rules is moved to the address of the
second; the inner `AddRule` fails with the duplicate-rule error, and the
table is left without the first rule. -/
theorem UpdateRule_identity_change_witness :
    mapGet sampleWorld2.pm.rules "0.0.0.0:8080"
        = some { Name := "web", LocalAddr := "0.0.0.0:8080", RemoteAddr := "10.0.0.1:80",
                 listener := some 0, activeConns := [7, 9] }
      ∧ normalizeLocalAddr "127.0.0.1:2222" ≠ "0.0.0.0:8080"
      ∧ (UpdateRule sampleWorld2 "0.0.0.0:8080" "web" "127.0.0.1:2222" "10.0.0.1:80"
            true true true).1
          = (AddRule (DeleteRule sampleWorld2 "0.0.0.0:8080" true).1 "web" "127.0.0.1:2222"
              "10.0.0.1:80" true true).1
      ∧ (UpdateRule sampleWorld2 "0.0.0.0:8080" "web" "127.0.0.1:2222" "10.0.0.1:80"
            true true true).1.pm.rules = mapDelete sampleWorld2.pm.rules "0.0.0.0:8080" :=
  have t := UpdateRule_identity_change sampleWorld2
    (UpdateRule sampleWorld2 "0.0.0.0:8080" "web" "127.0.0.1:2222" "10.0.0.1:80"
      true true true).1
    (DeleteRule sampleWorld2 "0.0.0.0:8080" true).1
    (AddRule (DeleteRule sampleWorld2 "0.0.0.0:8080" true).1 "web" "127.0.0.1:2222"
      "10.0.0.1:80" true true).1
    "0.0.0.0:8080" "web" "127.0.0.1:2222" "10.0.0.1:80" true true true
    { Name := "web", LocalAddr := "0.0.0.0:8080", RemoteAddr := "10.0.0.1:80",
      listener := some 0, activeConns := [7, 9] }
    (some (Error.updateAddFailed "127.0.0.1:2222" (Error.ruleExists "127.0.0.1:2222")))
    none (some (Error.ruleExists "127.0.0.1:2222")) none
    (by decide) (Or.inl (by decide)) (by decide) (by decide) (by decide)
  ⟨by decide, by decide, t.1, (t.2.2.2.2.2.1 (by decide)).2.1⟩

/-- C6. Structural errors are atomic: when `localAddr` is no key of the
table, `DeleteRule(localAddr)` and `UpdateRule(localAddr, ...)` return the
rule-not-found error; when the normalized `addAddr` is no key of the table
and the listen fails, `AddRule` returns the bind error and no rule. In each
case the state after the call is the state before it: the table, the open
listening sockets, the closed connections and the rules file. -/
theorem structural_errors_atomic (w : World)
    (localAddr newName newLocalAddr newRemoteAddr name addAddr remoteAddr : String)
    (listenOk writeOk writeOk1 writeOk2 : Bool)
    (hd : localAddr ∉ mapKeys w.pm.rules)
    (ha : normalizeLocalAddr addAddr ∉ mapKeys w.pm.rules) :
    DeleteRule w localAddr writeOk = (w, some (Error.ruleNotFound localAddr))
      ∧ UpdateRule w localAddr newName newLocalAddr newRemoteAddr listenOk writeOk1 writeOk2
          = (w, some (Error.ruleNotFound localAddr))
      ∧ AddRule w name addAddr remoteAddr false writeOk
          = (w, none, some (Error.listenFailed (normalizeLocalAddr addAddr))) := by
  have hd1 := (mapGet_eq_none_iff _ _).2 hd
  have ha1 := (mapGet_eq_none_iff _ _).2 ha
  refine ⟨?_, ?_, AddRule_of_listen_failed w name addAddr remoteAddr writeOk ha1⟩
  · unfold DeleteRule
    rw [hd1]
  · unfold UpdateRule
    simp only [hd1]

/-- Witness of C6: an address that is not in the table, and a failing listen
on a free port. -/
theorem structural_errors_atomic_witness :
    "0.0.0.0:9090" ∉ mapKeys sampleWorld2.pm.rules
      ∧ normalizeLocalAddr "9090" ∉ mapKeys sampleWorld2.pm.rules
      ∧ DeleteRule sampleWorld2 "0.0.0.0:9090" true
          = (sampleWorld2, some (Error.ruleNotFound "0.0.0.0:9090"))
      ∧ UpdateRule sampleWorld2 "0.0.0.0:9090" "db" "9091" "10.0.0.3:5432" true true true
          = (sampleWorld2, some (Error.ruleNotFound "0.0.0.0:9090"))
      ∧ AddRule sampleWorld2 "db" "9090" "10.0.0.3:5432" false true
          = (sampleWorld2, none, some (Error.listenFailed (normalizeLocalAddr "9090"))) :=
  ⟨by decide, by decide,
   structural_errors_atomic sampleWorld2 "0.0.0.0:9090" "db" "9091" "10.0.0.3:5432"
     "db" "9090" "10.0.0.3:5432" true true true true (by decide) (by decide)⟩

/-- C7, the code at the failing input: a metadata-only `UpdateRule` (same
local and remote address, new name `site`) whose write of the rules file
fails returns the error of `saveRules` to the caller, although the new name
is in the table and stays there. -/
theorem UpdateRule_metadata_only_surfaces_save_error :
    (UpdateRule sampleWorld "0.0.0.0:8080" "site" "0.0.0.0:8080" "10.0.0.1:80"
        true false true).2 = some Error.saveFailed
      ∧ mapGet (UpdateRule sampleWorld "0.0.0.0:8080" "site" "0.0.0.0:8080" "10.0.0.1:80"
          true false true).1.pm.rules "0.0.0.0:8080"
          = some { Name := "site", LocalAddr := "0.0.0.0:8080", RemoteAddr := "10.0.0.1:80",
                   listener := some 0, activeConns := [7, 9] }
      ∧ (AddRule sampleWorld "db" "9090" "10.0.0.3:5432" true false).2.2 = none
      ∧ (DeleteRule sampleWorld "0.0.0.0:8080" false).2 = none
      ∧ (UpdateRule sampleWorld "0.0.0.0:8080" "site" "0.0.0.0:9090" "10.0.0.1:80"
          true false false).2 = none := by
  decide

/-- C8, as the code has it: on success `AddRule` returns the rule it has
just stored in the table, under the normalized local address: it carries the
name, the normalized local address and the remote address, the handle of the
listening socket it opened, which is open and bound to that address, and an
empty set of active connections. The copy without handles, `snapshot rule`,
is what `GetRules` lists. -/
theorem AddRule_returns_stored_rule (w : World) (name localAddr remoteAddr : String)
    (listenOk writeOk : Bool)
    (h : (AddRule w name localAddr remoteAddr listenOk writeOk).2.2 = none) :
    ∃ rule l,
      (AddRule w name localAddr remoteAddr listenOk writeOk).2.1 = some rule
        ∧ rule.Name = name
        ∧ rule.LocalAddr = normalizeLocalAddr localAddr
        ∧ rule.RemoteAddr = remoteAddr
        ∧ rule.listener = some l
        ∧ (l, normalizeLocalAddr localAddr)
            ∈ (AddRule w name localAddr remoteAddr listenOk writeOk).1.net.listening
        ∧ rule.activeConns = []
        ∧ mapGet (AddRule w name localAddr remoteAddr listenOk writeOk).1.pm.rules
            (normalizeLocalAddr localAddr) = some rule
        ∧ snapshot rule ∈ GetRules (AddRule w name localAddr remoteAddr listenOk writeOk).1 := by
  obtain ⟨hfree, hok⟩ := (AddRule_success_iff _ _ _ _ _ _).1 h
  subst hok
  rw [AddRule_of_free w name localAddr remoteAddr writeOk hfree]
  refine ⟨_, w.net.nextListener, rfl, rfl, rfl, rfl, rfl, ?_, rfl, ?_, ?_⟩
  · simp only [saveRules_net]
    exact List.mem_append_right _ (List.mem_singleton_self _)
  · simp only [saveRules_pm]
    exact mapGet_mapSet_self _ _ _
  · simp only [GetRules, saveRules_pm]
    refine List.mem_map.2 ⟨(normalizeLocalAddr localAddr, _), ?_, rfl⟩
    exact List.mem_append_right _ (List.mem_singleton_self _)

/-- Witness of C8 as amended: adding port `9090` to a manager with two
rules. -/
theorem AddRule_returns_stored_rule_witness :
    (AddRule sampleWorld2 "db" "9090" "10.0.0.3:5432" true true).2.2 = none
      ∧ ∃ rule l,
          (AddRule sampleWorld2 "db" "9090" "10.0.0.3:5432" true true).2.1 = some rule
            ∧ rule.Name = "db"
            ∧ rule.LocalAddr = normalizeLocalAddr "9090"
            ∧ rule.RemoteAddr = "10.0.0.3:5432"
            ∧ rule.listener = some l
            ∧ (l, normalizeLocalAddr "9090")
                ∈ (AddRule sampleWorld2 "db" "9090" "10.0.0.3:5432" true true).1.net.listening
            ∧ rule.activeConns = []
            ∧ mapGet (AddRule sampleWorld2 "db" "9090" "10.0.0.3:5432" true true).1.pm.rules
                (normalizeLocalAddr "9090") = some rule
            ∧ snapshot rule
                ∈ GetRules (AddRule sampleWorld2 "db" "9090" "10.0.0.3:5432" true true).1 :=
  ⟨by decide,
   AddRule_returns_stored_rule sampleWorld2 "db" "9090" "10.0.0.3:5432" true true (by decide)⟩

/-- Counterexample to C8 as stated: the rule `AddRule` returns for port
`8080` on a new manager has the listener handle `0`, not a nil listener;
that socket is open; the returned rule is the rule the table holds, and it
differs from its copy without handles. -/
theorem AddRule_returns_handle_counterexample :
    (AddRule (NewProxyManager "rules.json") "web" "8080" "10.0.0.1:80" true true).2.1
        = some { Name := "web", LocalAddr := "0.0.0.0:8080", RemoteAddr := "10.0.0.1:80",
                 listener := some 0, activeConns := [] }
      ∧ (0, "0.0.0.0:8080") ∈ (AddRule (NewProxyManager "rules.json") "web" "8080"
            "10.0.0.1:80" true true).1.net.listening
      ∧ mapGet (AddRule (NewProxyManager "rules.json") "web" "8080" "10.0.0.1:80"
            true true).1.pm.rules "0.0.0.0:8080"
          = (AddRule (NewProxyManager "rules.json") "web" "8080" "10.0.0.1:80" true true).2.1
      ∧ (AddRule (NewProxyManager "rules.json") "web" "8080" "10.0.0.1:80" true true).2.1
          ≠ ((AddRule (NewProxyManager "rules.json") "web" "8080" "10.0.0.1:80"
                true true).2.1).map snapshot := by
  decide

/-- C9. Table invariant: after any sequence of `AddRule`, `UpdateRule` and
`DeleteRule` calls on a new manager, with any outcomes of the listens and
of the writes of the rules file, every entry of the table holds a rule whose
`LocalAddr` is its key, the keys are distinct, so the local addresses of the
rules are distinct, and a listening socket is open for an address exactly
when the address is a key of the table. -/
theorem table_invariant (rulesPath : String) (ops : List Op) :
    (∀ k r, (k, r) ∈ (runOps (NewProxyManager rulesPath) ops).pm.rules → r.LocalAddr = k)
      ∧ (mapKeys (runOps (NewProxyManager rulesPath) ops).pm.rules).Nodup
      ∧ ((runOps (NewProxyManager rulesPath) ops).pm.rules.map
            (fun e => e.2.LocalAddr)).Nodup
      ∧ (∀ a, (∃ l, (l, a) ∈ (runOps (NewProxyManager rulesPath) ops).net.listening)
            ↔ a ∈ mapKeys (runOps (NewProxyManager rulesPath) ops).pm.rules) := by
  obtain ⟨h1, h2, h3, -⟩ := TableInv_runOps ops _ (TableInv_NewProxyManager rulesPath)
  have hkey : ∀ k r, (k, r) ∈ (runOps (NewProxyManager rulesPath) ops).pm.rules →
      r.LocalAddr = k := fun k r hm => (h2 k r hm).1
  refine ⟨hkey, h1, ?_, ?_⟩
  · have : (runOps (NewProxyManager rulesPath) ops).pm.rules.map (fun e => e.2.LocalAddr)
        = mapKeys (runOps (NewProxyManager rulesPath) ops).pm.rules := by
      apply List.map_congr_left
      intro e he
      exact hkey e.1 e.2 he
    rw [this]; exact h1
  · intro a
    constructor
    · rintro ⟨l, hl⟩
      obtain ⟨-, r, hr, -⟩ := h3 l a hl
      exact List.mem_map.2 ⟨(a, r), hr, rfl⟩
    · intro ha
      obtain ⟨e, he, rfl⟩ := List.mem_map.1 ha
      obtain ⟨-, l, -, hl⟩ := h2 e.1 e.2 he
      exact ⟨l, hl⟩

/-- C10. Relay session teardown, over every schedule of the accept loop, the
body of `handleConnection` and its two copy goroutines. When the body is at
the dial, the connection is in the rule's active set and nothing else has
happened. From there a failed dial is a possible move that changes only the
dial result and the program point; the one move possible after it is the
removal from the active set, the one move possible after that is
`clientConn.Close()`, and these three moves end the session with the client
connection out of the active set and closed, no remote connection opened and
no copy goroutine started. From there a successful dial opens the remote
connection and starts both copies. In every state after a failed dial no
remote connection exists and no copy goroutine runs, the session is in its
deferred calls and ends within two moves. In every state after a successful
dial, while a copy direction is still running the body is at `wg.Wait()`:
the connection is in the active set and neither `clientConn.Close()` nor
`remoteConn.Close()` has been called; once the session has terminated both
copy goroutines are done, both connections are closed and the client
connection is out of the active set; and the session can always be brought
to its end by letting both copies return. -/
theorem session_teardown (steps : List Step) (s : Session)
    (h : runSteps Session.init steps = some s) :
    (s.main = MainPc.dialing → s.inActiveSet = true ∧ s.dialed = none)
      ∧ (s.main = MainPc.dialing →
            step s (Step.dial false)
                = some { s with main := MainPc.deregistering, dialed := some false }
          ∧ (∀ st s2, step { s with main := MainPc.deregistering, dialed := some false } st
                = some s2 → st = Step.deregister)
          ∧ (∀ st s2, step { s with main := MainPc.closingClient, dialed := some false,
                                    inActiveSet := false } st = some s2 →
                st = Step.closeClient)
          ∧ runSteps s [Step.dial false, Step.deregister, Step.closeClient]
              = some { s with main := MainPc.terminated, dialed := some false,
                              inActiveSet := false, clientClosed := true }
          ∧ s.remoteOpened = false ∧ s.remoteClosed = false
          ∧ s.toClient = CopyPc.notStarted ∧ s.toRemote = CopyPc.notStarted)
      ∧ (s.main = MainPc.dialing →
            step s (Step.dial true)
              = some { s with main := MainPc.waiting, dialed := some true,
                              remoteOpened := true, wg := s.wg + 2,
                              toClient := CopyPc.copying, toRemote := CopyPc.copying })
      ∧ (s.dialed = some false →
            s.remoteOpened = false
          ∧ s.toClient = CopyPc.notStarted ∧ s.toRemote = CopyPc.notStarted
          ∧ (s.main = MainPc.deregistering ∨ s.main = MainPc.closingClient
              ∨ s.main = MainPc.terminated)
          ∧ (s.main = MainPc.terminated → s.inActiveSet = false ∧ s.clientClosed = true)
          ∧ ∃ rest t, rest.length ≤ 2 ∧ runSteps s rest = some t
              ∧ t.main = MainPc.terminated ∧ t.inActiveSet = false
              ∧ t.clientClosed = true ∧ t.remoteOpened = false)
      ∧ (s.dialed = some true →
            s.copyRunning Dir.toClient ∨ s.copyRunning Dir.toRemote →
            s.main = MainPc.waiting ∧ s.inActiveSet = true
              ∧ s.clientClosed = false ∧ s.remoteClosed = false)
      ∧ (s.dialed = some true → s.main = MainPc.terminated →
            s.toClient = CopyPc.done ∧ s.toRemote = CopyPc.done
              ∧ s.remoteOpened = true ∧ s.remoteClosed = true
              ∧ s.clientClosed = true ∧ s.inActiveSet = false)
      ∧ (s.dialed = some true →
            ∃ t, runSteps s (drainSchedule s) = some t ∧ t.main = MainPc.terminated) := by
  have hi := SessionInv_runSteps steps _ s SessionInv_init h
  refine ⟨?_, dial_failed_run s hi, dial_ok_step s, ?_, ?_, ?_, dial_ok_drains s hi⟩
  · intro hm
    simp only [SessionInv, hm, notDialed] at hi
    exact ⟨hi.1, hi.2.1⟩
  · intro hd
    obtain ⟨hpc, hex⟩ := dial_failed_terminates s hi hd
    have hfields : s.remoteOpened = false ∧ s.toClient = CopyPc.notStarted
        ∧ s.toRemote = CopyPc.notStarted
        ∧ (s.main = MainPc.terminated → s.inActiveSet = false ∧ s.clientClosed = true) := by
      rcases hpc with hm | hm | hm <;>
        simp [SessionInv, hm, tearingDown, hd] at hi <;> simp [hi, hm]
    exact ⟨hfields.1, hfields.2.1, hfields.2.2.1, hpc, hfields.2.2.2, hex⟩
  · intro hd hrun
    obtain ⟨main, tc, tr, wg, dialed, ia, cc, ro, rc, cwc, rwc⟩ := s
    simp only at hd
    subst hd
    simp only [Session.copyRunning, Session.copyPc] at hrun
    cases main <;> simp [SessionInv, notDialed, tearingDown] at hi ⊢
    · simp [hi]
    all_goals
      rcases hrun with (hr | hr) | (hr | hr) <;> simp [hi] at hr
  · intro hd hm
    simp [SessionInv, hm, tearingDown, hd] at hi
    simp [hi]

/-- Witness of C10: a full schedule with a failed dial, the failed dial
taken from the session at the dial, and a full schedule with a successful
dial. -/
theorem session_teardown_witness :
    (runSteps Session.init sampleFailedSchedule = some sampleFailedFinal
      ∧ sampleFailedFinal.dialed = some false
      ∧ sampleFailedFinal.main = MainPc.terminated
      ∧ sampleFailedFinal.remoteOpened = false
      ∧ sampleFailedFinal.inActiveSet = false ∧ sampleFailedFinal.clientClosed = true)
      ∧ (runSteps Session.init [Step.register, Step.spawn] = some sampleDialing
          ∧ sampleDialing.main = MainPc.dialing
          ∧ step sampleDialing (Step.dial false)
              = some { sampleDialing with main := MainPc.deregistering, dialed := some false }
          ∧ runSteps sampleDialing [Step.dial false, Step.deregister, Step.closeClient]
              = some sampleFailedFinal)
      ∧ (runSteps Session.init sampleSchedule = some sampleFinal
          ∧ sampleFinal.toClient = CopyPc.done ∧ sampleFinal.toRemote = CopyPc.done
          ∧ sampleFinal.remoteOpened = true ∧ sampleFinal.remoteClosed = true
          ∧ sampleFinal.clientClosed = true ∧ sampleFinal.inActiveSet = false) :=
  have tF := (session_teardown sampleFailedSchedule sampleFailedFinal (by decide)).2.2.2.1 rfl
  have tD := (session_teardown [Step.register, Step.spawn] sampleDialing (by decide)).2.1 rfl
  have tS := (session_teardown sampleSchedule sampleFinal (by decide)).2.2.2.2.2.1 rfl rfl
  ⟨⟨by decide, rfl, rfl, tF.1, tF.2.2.2.2.1 rfl⟩,
   ⟨by decide, rfl, tD.1, tD.2.2.2.1⟩,
   ⟨by decide, tS⟩⟩

/-- C11. Rule lookup takes the address as given. Let `AddRule(name, port,
remote)` succeed on an empty table, `port` having no colon, and give the
state `w1`: the only key of `w1` is `"0.0.0.0:" ++ port`; `DeleteRule(port)`
and `UpdateRule(port, ...)` return the rule-not-found error and leave `w1`
as it is, the rule still in the table; `DeleteRule("0.0.0.0:" ++ port)`
returns no error and leaves the table empty. Let `AddRule(name, addr,
remote)` succeed on any table, `addr` having a colon, and give the state
`w2`: `DeleteRule(addr)` returns no error and the table is the one before
the `AddRule`, so the key set is restored. -/
theorem lookup_verbatim (w0 w1 w w2 : World) (name port remote addr : String)
    (newName newLocalAddr newRemoteAddr : String)
    (listenOk0 writeOk0 listenOk writeOk writeOkD listenOkU writeOkU1 writeOkU2 : Bool)
    (r1 r2 : Option ForwardRule)
    (hempty : w0.pm.rules = [])
    (hport : ':' ∉ port.data)
    (haddr : ':' ∈ addr.data)
    (h1 : AddRule w0 name port remote listenOk0 writeOk0 = (w1, r1, none))
    (h2 : AddRule w name addr remote listenOk writeOk = (w2, r2, none)) :
    mapKeys w1.pm.rules = ["0.0.0.0:" ++ port]
      ∧ DeleteRule w1 port writeOkD = (w1, some (Error.ruleNotFound port))
      ∧ UpdateRule w1 port newName newLocalAddr newRemoteAddr listenOkU writeOkU1 writeOkU2
          = (w1, some (Error.ruleNotFound port))
      ∧ (DeleteRule w1 ("0.0.0.0:" ++ port) writeOkD).2 = none
      ∧ (DeleteRule w1 ("0.0.0.0:" ++ port) writeOkD).1.pm.rules = []
      ∧ (DeleteRule w2 addr writeOkD).2 = none
      ∧ (DeleteRule w2 addr writeOkD).1.pm.rules = w.pm.rules
      ∧ mapKeys (DeleteRule w2 addr writeOkD).1.pm.rules = mapKeys w.pm.rules := by
  obtain ⟨hk1, rule1, hr1⟩ := AddRule_success_rules w0 w1 name port remote listenOk0 writeOk0 r1 h1
  obtain ⟨hk2, rule2, hr2⟩ := AddRule_success_rules w w2 name addr remote listenOk writeOk r2 h2
  rw [normalizeLocalAddr_of_not_mem port hport] at hk1 hr1
  rw [normalizeLocalAddr_of_mem addr haddr] at hk2 hr2
  rw [hempty, List.nil_append] at hr1
  have hne : ¬ "0.0.0.0:" ++ port = port := by
    have := ne_normalizeLocalAddr_of_not_mem port hport
    rw [normalizeLocalAddr_of_not_mem port hport] at this
    exact fun e => this e.symm
  have hget1 : mapGet w1.pm.rules port = none := by
    rw [hr1, mapGet_cons, if_neg hne]; rfl
  have hget1' : mapGet w1.pm.rules ("0.0.0.0:" ++ port) = some rule1 := by
    rw [hr1, mapGet_cons, if_pos rfl]
  have hget2 : mapGet w2.pm.rules addr = some rule2 := by
    rw [hr2, mapGet_append, (mapGet_eq_none_iff _ _).2 hk2]
    simp [mapGet]
  have hdel1 : (DeleteRule w1 ("0.0.0.0:" ++ port) writeOkD).1.pm.rules = [] := by
    rw [DeleteRule_of_get w1 _ writeOkD rule1 hget1']
    simp only [saveRules_pm]
    rw [hr1]
    simp [mapDelete]
  have hdel2 : (DeleteRule w2 addr writeOkD).1.pm.rules = w.pm.rules := by
    rw [DeleteRule_of_get w2 _ writeOkD rule2 hget2]
    simp only [saveRules_pm]
    rw [hr2]
    exact mapDelete_append_singleton _ _ _ hk2
  refine ⟨?_, DeleteRule_of_absent w1 port writeOkD hget1,
    UpdateRule_of_absent w1 port newName newLocalAddr newRemoteAddr listenOkU writeOkU1
      writeOkU2 hget1, ?_, hdel1, ?_, hdel2, ?_⟩
  · rw [hr1]; rfl
  · rw [DeleteRule_of_get w1 _ writeOkD rule1 hget1']
  · rw [DeleteRule_of_get w2 _ writeOkD rule2 hget2]
  · rw [hdel2]

/-- Witness of C11: port `8080` added to a new manager, and the address
`127.0.0.1:2222` added to a manager that holds one rule. -/
theorem lookup_verbatim_witness :
    (NewProxyManager "rules.json").pm.rules = []
      ∧ ':' ∉ "8080".data
      ∧ ':' ∈ "127.0.0.1:2222".data
      ∧ (AddRule (NewProxyManager "rules.json") "web" "8080" "10.0.0.1:80" true true).2.2 = none
      ∧ (AddRule sampleWorld "web" "127.0.0.1:2222" "10.0.0.1:80" true true).2.2 = none
      ∧ DeleteRule (AddRule (NewProxyManager "rules.json") "web" "8080" "10.0.0.1:80"
            true true).1 "8080" true
          = ((AddRule (NewProxyManager "rules.json") "web" "8080" "10.0.0.1:80" true true).1,
             some (Error.ruleNotFound "8080"))
      ∧ (DeleteRule (AddRule (NewProxyManager "rules.json") "web" "8080" "10.0.0.1:80"
            true true).1 ("0.0.0.0:" ++ "8080") true).1.pm.rules = []
      ∧ (DeleteRule (AddRule sampleWorld "web" "127.0.0.1:2222" "10.0.0.1:80" true true).1
            "127.0.0.1:2222" true).1.pm.rules = sampleWorld.pm.rules :=
  have t := lookup_verbatim (NewProxyManager "rules.json")
    (AddRule (NewProxyManager "rules.json") "web" "8080" "10.0.0.1:80" true true).1
    sampleWorld
    (AddRule sampleWorld "web" "127.0.0.1:2222" "10.0.0.1:80" true true).1
    "web" "8080" "10.0.0.1:80" "127.0.0.1:2222" "site" "8080" "10.0.0.1:80"
    true true true true true true true true
    (AddRule (NewProxyManager "rules.json") "web" "8080" "10.0.0.1:80" true true).2.1
    (AddRule sampleWorld "web" "127.0.0.1:2222" "10.0.0.1:80" true true).2.1
    rfl (by decide) (by decide) (by decide) (by decide)
  ⟨rfl, by decide, by decide, by decide, by decide, t.2.1, t.2.2.2.2.1, t.2.2.2.2.2.2.1⟩

end PortProxy
